import Mathlib

/-!
Verification development for the receipt-text parsing and categorization
pipeline of the spend-scan-savvy budgeting app.

The functions below are a shallow embedding of the TypeScript code in
supabase/functions/process-receipt/index.ts (first, most elaborate revision
of the file).  Strings are modelled as lists of characters, decimal numbers
as rationals, JavaScript Math.round as rounding half toward positive
infinity, and calendar dates as explicit year/month/day records.  Each
regular expression of the source is implemented as a bespoke matcher that
replicates the source pattern's greedy/lazy alternatives on the character
shapes the pattern can encounter.
-/

namespace SpendScan

/-! ## Character and string helpers -/

/-- JavaScript whitespace class model (ASCII part, which is all the code
meets after splitting on newlines). -/
def jsSpace (c : Char) : Bool :=
  c = ' ' || c = '\t' || c = '\n' || c = '\r' || c = '\x0b' || c = '\x0c'

/-- Word character class of JS regexes: [A-Za-z0-9_]. -/
def wordChar (c : Char) : Bool :=
  c.isAlpha || c.isDigit || c = '_'

/-- ASCII lower-casing, as String.prototype.toLowerCase on ASCII. -/
def lowerStr (s : List Char) : List Char := s.map Char.toLower

/-- Greedy span: longest prefix of characters satisfying p, and the rest. -/
def spanP (p : Char → Bool) : List Char → List Char × List Char
  | [] => ([], [])
  | c :: cs =>
    if p c then
      let r := spanP p cs
      (c :: r.1, r.2)
    else ([], c :: cs)

/-- Substring containment (exact case). -/
def containsSub (pat : List Char) : List Char → Bool
  | [] => pat.isEmpty
  | c :: cs => pat.isPrefixOf (c :: cs) || containsSub pat cs

/-- Case-insensitive substring containment. -/
def containsCI (pat s : List Char) : Bool :=
  containsSub (lowerStr pat) (lowerStr s)

/-- Substring containment where a dot in the pattern matches any character
(model of the JS regex wildcard inside keyword alternations). -/
def matchWildAt : List Char → List Char → Bool
  | [], _ => true
  | _ :: _, [] => false
  | p :: ps, c :: cs => (p = '.' || p = c) && matchWildAt ps cs

def containsWild (pat : List Char) : List Char → Bool
  | [] => matchWildAt pat []
  | c :: cs => matchWildAt pat (c :: cs) || containsWild pat cs

/-- Does the (lower-cased) string contain any of the given keywords? -/
def containsAnyKw (kws : List (List Char)) (s : List Char) : Bool :=
  kws.any (fun k => containsWild k s)

/-- Numeric value of a digit list (most significant first). -/
def natOfDigits (ds : List Char) : ℕ :=
  ds.foldl (fun acc c => 10 * acc + (c.toNat - '0'.toNat)) 0

/-- parseFloat on a comma-stripped capture of shape digits [ dot digits ]:
integer part plus fractional part scaled by a power of ten. -/
def decOfParts (intPart fracPart : List Char) : ℚ :=
  (natOfDigits intPart : ℚ) + (natOfDigits fracPart : ℚ) / ((10 : ℚ) ^ fracPart.length)

/-- Trim (JS String.prototype.trim): drop whitespace at both ends. -/
def trimChars (s : List Char) : List Char :=
  ((s.dropWhile jsSpace).reverse.dropWhile jsSpace).reverse

/-- Split a text into its nonempty trimmed lines, as the source does with
text.split('\n').map(trim).filter(nonempty). -/
def splitLinesAux (cur : List Char) (acc : List (List Char)) :
    List Char → List (List Char)
  | [] => (cur.reverse :: acc).reverse
  | c :: cs =>
    if c = '\n' then splitLinesAux [] (cur.reverse :: acc) cs
    else splitLinesAux (c :: cur) acc cs

def toLines (text : List Char) : List (List Char) :=
  ((splitLinesAux [] [] text).map trimChars).filter (fun l => ¬ l.isEmpty)

/-! ## Exact decimal numbers -/

/-- An exact decimal number: num / 10 ^ exp.  All numeric values the
program manipulates are finite decimals (parsed from digit strings) or
integers, so this representation is exact; unlike Rat it reduces inside
the kernel, because no gcd normalisation is involved. -/
structure Dec where
  num : ℤ
  exp : ℕ
deriving DecidableEq, Repr

def pow10 (k : ℕ) : ℤ := 10 ^ k

/-- The rational value of a decimal. -/
def Dec.val (d : Dec) : ℚ := (d.num : ℚ) / (10 : ℚ) ^ d.exp

/-- Decimal comparison by cross multiplication. -/
def dle (a b : Dec) : Bool := a.num * pow10 b.exp ≤ b.num * pow10 a.exp

def dlt (a b : Dec) : Bool := a.num * pow10 b.exp < b.num * pow10 a.exp

def dadd (a b : Dec) : Dec :=
  ⟨a.num * pow10 b.exp + b.num * pow10 a.exp, a.exp + b.exp⟩

def dofNat (n : ℕ) : Dec := ⟨n, 0⟩

/-- Multiplication by a natural number (quantity times unit price). -/
def dmulNat (n : ℕ) (a : Dec) : Dec := ⟨n * a.num, a.exp⟩

/-- Math.max and Math.min on integers. -/
def imax (a b : ℤ) : ℤ := if a ≤ b then b else a

def imin (a b : ℤ) : ℤ := if a ≤ b then a else b

/-- JavaScript Math.round of num / den (den > 0): the floor of the
quotient plus one half, i.e. (2 num + den) / (2 den) with Euclidean
division, which is floor division for a positive divisor. -/
def jsRoundDiv (num den : ℤ) : ℤ := (2 * num + den) / (2 * den)

/-- Math.round of a decimal value. -/
def jsRoundDec (d : Dec) : ℤ := jsRoundDiv d.num (pow10 d.exp)

/-- Math.round(x * 100) / 100: the pervasive two-decimal rounding.
The result always has denominator 100.  The source rounds IEEE doubles;
this exact-decimal model agrees with it except when the amount has more
than two decimals and 100 times its nearest double falls on the other
side of a half-integer boundary than the exact value (such as 1.005,
whose double is just below it) — concrete statements below use only
inputs away from such boundaries, where the two agree. -/
def round2 (d : Dec) : Dec := ⟨jsRoundDec ⟨d.num * 100, d.exp⟩, 2⟩

/-! ## The item record and category labels -/

structure ExtractedItem where
  name : List Char
  price : Dec
  category : List Char
  quantity : ℕ
deriving DecidableEq, Repr

/-- The fixed category label set of the glossary. -/
def categoryLabels : List (List Char) :=
  ["Groceries".toList, "Household".toList, "Personal Care".toList,
   "Electronics".toList, "Clothing".toList, "Dining".toList,
   "Health".toList, "Other".toList]

/-! ## Category classifier (categorizeItem, lines 632-671) -/

def diningKw : List (List Char) :=
  ["coffee".toList, "tea".toList, "drink".toList, "soda".toList, "juice".toList,
   "water".toList, "beer".toList, "wine".toList, "alcohol".toList, "beverage".toList]

def groceriesKw : List (List Char) :=
  ["bread".toList, "milk".toList, "egg".toList, "fruit".toList, "vegetable".toList,
   "meat".toList, "chicken".toList, "beef".toList, "pork".toList, "fish".toList,
   "cheese".toList, "yogurt".toList, "cereal".toList, "rice".toList, "pasta".toList,
   "apple".toList, "banana".toList, "tomato".toList, "lettuce".toList, "onion".toList,
   "potato".toList, "carrot".toList, "broccoli".toList, "spinach".toList,
   "organic".toList, "fresh".toList]

def householdKw : List (List Char) :=
  ["soap".toList, "detergent".toList, "clean".toList, "tissue".toList, "paper".toList,
   "towel".toList, "bag".toList, "foil".toList, "wrap".toList, "plate".toList,
   "cup".toList, "fork".toList, "knife".toList, "spoon".toList, "dish".toList,
   "laundry".toList, "bleach".toList, "sponge".toList]

def personalCareKw : List (List Char) :=
  ["shampoo".toList, "toothpaste".toList, "lotion".toList, "deodorant".toList,
   "soap".toList, "brush".toList, "razor".toList, "makeup".toList, "perfume".toList,
   "cologne".toList, "lip".toList, "face".toList, "hand".toList, "body".toList,
   "skin".toList, "hair".toList]

def healthKw : List (List Char) :=
  ["medicine".toList, "vitamin".toList, "pill".toList, "tablet".toList,
   "capsule".toList, "bandage".toList, "aspirin".toList, "tylenol".toList,
   "advil".toList, "pharmacy".toList, "rx".toList, "prescription".toList]

def electronicsKw : List (List Char) :=
  ["phone".toList, "computer".toList, "laptop".toList, "tablet".toList,
   "cable".toList, "charger".toList, "battery".toList, "electronic".toList,
   "tech".toList, "digital".toList]

def clothingKw : List (List Char) :=
  ["shirt".toList, "pants".toList, "dress".toList, "shoe".toList, "sock".toList,
   "hat".toList, "jacket".toList, "coat".toList, "jeans".toList, "sweater".toList,
   "underwear".toList, "bra".toList, "clothing".toList, "apparel".toList]

def categorizeItem (itemName : List Char) : List Char :=
  let n := lowerStr itemName
  if containsAnyKw diningKw n then "Dining".toList
  else if containsAnyKw groceriesKw n then "Groceries".toList
  else if containsAnyKw householdKw n then "Household".toList
  else if containsAnyKw personalCareKw n then "Personal Care".toList
  else if containsAnyKw healthKw n then "Health".toList
  else if containsAnyKw electronicsKw n then "Electronics".toList
  else if containsAnyKw clothingKw n then "Clothing".toList
  else "Other".toList

/-! ## Total amount extraction (parseReceiptText, lines 356-404)

The nine labelled-amount regexes of the source are implemented as bespoke
matchers.  Each returns the parsed numeric value of its first capture on
the line, with commas stripped, or none when the pattern does not match.
At every place where a greedy or optional quantifier meets the following
token, the adjacent character classes are disjoint, so each matcher is
deterministic; the comments note the pattern it implements. -/

def digitComma (c : Char) : Bool := c.isDigit || c = ','

def colonSpace (c : Char) : Bool := c = ':' || jsSpace c

/-- parseFloat of a capture of shape [digits|commas]+ [dot digits] with
commas stripped first: an exact decimal. -/
def mkAmount (ds fs : List Char) : Dec :=
  ⟨(natOfDigits (ds.filter (fun c => c ≠ ',')) * 10 ^ fs.length + natOfDigits fs : ℕ), fs.length⟩

/-- The capture `[dollar-comma-digits]+ optional-dot digits-star` at the
given position, as in the labelled patterns. -/
def amountLoose (cs : List Char) : Option Dec :=
  let p := spanP digitComma cs
  if p.1.isEmpty then none
  else
    match p.2 with
    | '.' :: r2 => some (mkAmount p.1 (spanP Char.isDigit r2).1)
    | _ => some (mkAmount p.1 [])

/-- The continuation `[:\s]+ optional-dollar capture` after a label. -/
def amountAfterLabel (cs : List Char) : Option Dec :=
  let p := spanP colonSpace cs
  if p.1.isEmpty then none
  else
    match p.2 with
    | '$' :: r => amountLoose r
    | r => amountLoose r

/-- Case-insensitive literal prefix test. -/
def ciPrefix (pat s : List Char) : Bool :=
  (lowerStr pat).isPrefixOf (lowerStr s)

/-- Leftmost occurrence of a case-insensitive label followed by the
labelled-amount continuation. -/
def findLabelAmount (label : List Char) : List Char → Option Dec
  | [] => none
  | c :: cs =>
    if ciPrefix label (c :: cs) then
      match amountAfterLabel ((c :: cs).drop label.length) with
      | some a => some a
      | none => findLabelAmount label cs
    else findLabelAmount label cs

/-- Two-word labels such as `amount\s+due` and `you\s+pay`. -/
def findLabel2Amount (w1 w2 : List Char) : List Char → Option Dec
  | [] => none
  | c :: cs =>
    (if ciPrefix w1 (c :: cs) then
      let r := (c :: cs).drop w1.length
      let p := spanP jsSpace r
      if p.1.isEmpty then none
      else if ciPrefix w2 p.2 then amountAfterLabel (p.2.drop w2.length)
      else none
    else none).orElse (fun _ => findLabel2Amount w1 w2 cs)

/-- Pattern 8: dollar sign, optional spaces, digits dot exactly two digits,
followed by whitespace or end of line. -/
def findDollarAmount : List Char → Option Dec
  | [] => none
  | '$' :: cs =>
    (let r1 := (spanP jsSpace cs).2
     let p := spanP digitComma r1
     if p.1.isEmpty then none
     else
       match p.2 with
       | '.' :: d1 :: d2 :: rest =>
         if d1.isDigit && d2.isDigit && (rest.isEmpty || jsSpace rest.headI) then
           some (mkAmount p.1 [d1, d2])
         else none
       | _ => none).orElse (fun _ => findDollarAmount cs)
  | _ :: cs => findDollarAmount cs

/-- Pattern 9: the same shape anchored at the start of the line. -/
def startAmount (l : List Char) : Option Dec :=
  let p := spanP digitComma l
  if p.1.isEmpty then none
  else
    match p.2 with
    | '.' :: d1 :: d2 :: rest =>
      if d1.isDigit && d2.isDigit && (rest.isEmpty || jsSpace rest.headI) then
        some (mkAmount p.1 [d1, d2])
      else none
    | _ => none

/-- The nine total patterns, in source order.  Patterns 1 and 4 of the
source ((grand )?total and (sub)?total) capture the amount after the same
leftmost literal total, so they are the same extraction function. -/
def totalMatchers : List (List Char → Option Dec) :=
  [findLabelAmount "total".toList,
   findLabel2Amount "amount".toList "due".toList,
   findLabel2Amount "balance".toList "due".toList,
   findLabelAmount "total".toList,
   findLabel2Amount "you".toList "pay".toList,
   findLabelAmount "charge".toList,
   findLabelAmount "paid".toList,
   findDollarAmount,
   startAmount]

/-- The sanity range 0 < amount < 10000 of the source. -/
def amountInRange (a : Dec) : Bool := dlt ⟨0, 0⟩ a && dlt a ⟨10000, 0⟩

/-- Is this a line whose lowercase text contains total but not sub? -/
def isTotalLine (l : List Char) : Bool :=
  containsSub "total".toList (lowerStr l) && ¬ containsSub "sub".toList (lowerStr l)

/-- A recorded candidate amount with its line index. -/
structure Cand where
  amount : Dec
  index : ℕ
deriving DecidableEq, Repr

/-- One line of the scan: try every pattern in order, record each in-range
match as a candidate; on a total line the first in-range match is accepted
immediately and the pattern loop stops. -/
def scanPats (isTot : Bool) (i : ℕ) (l : List Char) :
    List (List Char → Option Dec) → List Cand × Option Dec
  | [] => ([], none)
  | m :: ms =>
    match m l with
    | some a =>
      if amountInRange a then
        if isTot then ([⟨a, i⟩], some a)
        else
          let r := scanPats isTot i l ms
          (⟨a, i⟩ :: r.1, r.2)
      else scanPats isTot i l ms
    | none => scanPats isTot i l ms

def scanLineTot (i : ℕ) (l : List Char) : List Cand × Option Dec :=
  scanPats (isTotalLine l) i l totalMatchers

/-- The backward loop over the (index, line) pairs listed bottom first:
stop at the first accepted explicit total, collecting candidates along
the way. -/
def scanLoop : List (ℕ × List Char) → Option Dec × List Cand
  | [] => (none, [])
  | (i, l) :: rest =>
    let r := scanLineTot i l
    match r.2 with
    | some a => (some a, r.1)
    | none =>
      let s := scanLoop rest
      (s.1, r.1 ++ s.2)

/-- The whole total scan of a line list. -/
def scanTotals (lines : List (List Char)) : Option Dec × List Cand :=
  scanLoop lines.enum.reverse

/-- Is candidate c in the bottom third, index >= lines * 0.66?  Stated
with integers: 50 * index >= 33 * lines. -/
def inBottomThird (n : ℕ) (c : Cand) : Bool := 33 * n ≤ 50 * c.index

/-- The sort comparator of the source as a strict preference: prefer the
bottom third, then the larger amount. -/
def candBetter (n : ℕ) (c d : Cand) : Bool :=
  (inBottomThird n c && ¬ inBottomThird n d) ||
    (inBottomThird n c = inBottomThird n d && dlt d.amount c.amount)

/-- One comparison step of the selection fold. -/
def candPick (n : ℕ) (best x : Cand) : Cand :=
  if candBetter n x best then x else best

/-- foundAmounts.sort(cmp)[0]: the stable sort followed by taking the head
equals the fold keeping the earliest maximal element. -/
def selectCand (n : ℕ) : List Cand → Option Cand
  | [] => none
  | c :: cs => some (cs.foldl (candPick n) c)

/-- Claim-side description of one line of the scan: the first pattern
match whose amount is in range. -/
def lineFirstValid (l : List Char) : Option Dec :=
  totalMatchers.findSome? (fun m =>
    match m l with
    | some a => if amountInRange a then some a else none
    | none => none)

/-- Claim-side description of the early exit: a total line yields its
first valid amount. -/
def lineAccept (l : List Char) : Option Dec :=
  if isTotalLine l then lineFirstValid l else none

/-! ## Line item extraction (parseReceiptText, lines 465-606) -/

/-- The skip keywords: lines starting (case-insensitively) with one of
these are never items. -/
def skipStartKw : List (List Char) :=
  ["total".toList, "subtotal".toList, "tax".toList, "balance".toList,
   "change".toList, "payment".toList, "cash".toList, "credit".toList,
   "debit".toList, "receipt".toList, "thank".toList, "you".toList,
   "store".toList, "address".toList, "phone".toList, "date".toList,
   "time".toList]

/-- skipPatterns: keyword start, all whitespace, date/time punctuation
only, or symbols only. -/
def shouldSkipLine (l : List Char) : Bool :=
  skipStartKw.any (fun k => ciPrefix k l) ||
  l.all jsSpace ||
  l.all (fun c => c.isDigit || c = '-' || c = '/' || jsSpace c || c = ':') ||
  l.all (fun c => c = '#' || c = '*' || c = '-' || c = '=')

/-- The name class of pattern 0 and the two-line name pattern:
[A-Z \s * - apostrophe & dot 0-9]. -/
def classUpper (c : Char) : Bool :=
  ('A' ≤ c && c ≤ 'Z') || jsSpace c || c = '*' || c = '-' || c = '\'' ||
    c = '&' || c = '.' || c.isDigit

/-- The name class of the quantity patterns and of name sanitizing:
[\w \s - apostrophe & dot]. -/
def classWord (c : Char) : Bool :=
  wordChar c || jsSpace c || c = '-' || c = '\'' || c = '&' || c = '.'

/-- The dot of the lazy name groups: any character but a newline. -/
def anyNonNl (c : Char) : Bool := c ≠ '\n'

/-- The price capture anchored at the end of the line:
[digit comma]+ dot one-or-two digits, end. -/
def priceAtEnd (cs : List Char) : Option Dec :=
  let p := spanP digitComma cs
  if p.1.isEmpty then none
  else
    match p.2 with
    | '.' :: r2 =>
      let q := spanP Char.isDigit r2
      if (q.1.length = 1 || q.1.length = 2) && q.2.isEmpty then
        some (mkAmount p.1 q.1)
      else none
    | _ => none

/-- Separator of patterns 0 and 6: one or more whitespace then the price
at the end of the line. -/
def sepWsPrice (cs : List Char) : Option Dec :=
  let p := spanP jsSpace cs
  if p.1.isEmpty then none else priceAtEnd p.2

/-- Separator of pattern 1: whitespace+, dollar, whitespace*, price. -/
def sepDollarPrice (cs : List Char) : Option Dec :=
  let p := spanP jsSpace cs
  if p.1.isEmpty then none
  else
    match p.2 with
    | '$' :: r => priceAtEnd (spanP jsSpace r).2
    | _ => none

/-- Separator of pattern 2: two or more whitespace then the price. -/
def sepWs2Price (cs : List Char) : Option Dec :=
  let p := spanP jsSpace cs
  if 2 ≤ p.1.length then priceAtEnd p.2 else none

/-- Separator of pattern 3: one or more tabs then the price. -/
def sepTabPrice (cs : List Char) : Option Dec :=
  let p := spanP (fun c => c = '\t') cs
  if p.1.isEmpty then none else priceAtEnd p.2

/-- A lazy capture group: the shortest nonempty prefix of name-class
characters after which the separator-and-price continuation matches,
exactly as the non-greedy +? quantifier backtracks. -/
def lazyName (nameOk : Char → Bool) (sepPrice : List Char → Option Dec) :
    List Char → List Char → Option (List Char × Dec)
  | _, [] => none
  | accRev, c :: cs =>
    if nameOk c then
      match sepPrice cs with
      | some p => some ((c :: accRev).reverse, p)
      | none => lazyName nameOk sepPrice (c :: accRev) cs
    else none

/-- The continuation of the quantity patterns after the greedy name:
whitespace+, digits (the quantity), whitespace*, the symbol, whitespace*,
optional dollar, then digits dot one-or-two digits (not anchored). -/
def qtyCont (symOk : Char → Bool) (cs : List Char) : Option (ℕ × Dec) :=
  let p := spanP jsSpace cs
  if p.1.isEmpty then none
  else
    let q := spanP Char.isDigit p.2
    if q.1.isEmpty then none
    else
      match (spanP jsSpace q.2).2 with
      | sym :: r3 =>
        if symOk sym then
          let r4 := (spanP jsSpace r3).2
          let r5 := match r4 with
            | '$' :: r => r
            | r => r
          let d := spanP digitComma r5
          if d.1.isEmpty then none
          else
            match d.2 with
            | '.' :: r6 =>
              let f := spanP Char.isDigit r6
              if f.1.isEmpty then none
              else some (natOfDigits q.1, mkAmount d.1 (f.1.take 2))
            | _ => none
        else none
      | [] => none

/-- A greedy capture group: the longest nonempty prefix of name-class
characters after which the continuation matches, backtracking one
character at a time as the greedy + quantifier does. -/
def greedyShrink (cont : List Char → Option (ℕ × Dec)) :
    List Char → List Char → Option (List Char × ℕ × Dec)
  | [], _ => none
  | c :: nameRev, rest =>
    match cont rest with
    | some r => some ((c :: nameRev).reverse, r)
    | none => greedyShrink cont nameRev (c :: rest)

def greedyQtyName (symOk : Char → Bool) (l : List Char) :
    Option (List Char × ℕ × Dec) :=
  let p := spanP classWord l
  greedyShrink (qtyCont symOk) p.1.reverse p.2

/-- A raw pattern match before validation: name capture, price, quantity. -/
structure RawItem where
  name : List Char
  price : Dec
  quantity : ℕ
deriving DecidableEq, Repr

/-- parseInt(qty) || 1 of the source, then price = quantity * unit. -/
def rawOfQty (r : List Char × ℕ × Dec) : RawItem :=
  let q := if r.2.1 = 0 then 1 else r.2.1
  ⟨r.1, dmulNat q r.2.2, q⟩

/-- The seven single-line item patterns, in source priority order. -/
def itemMatchers : List (List Char → Option RawItem) :=
  [fun l => (lazyName classUpper sepWsPrice [] l).map (fun r => ⟨r.1, r.2, 1⟩),
   fun l => (lazyName anyNonNl sepDollarPrice [] l).map (fun r => ⟨r.1, r.2, 1⟩),
   fun l => (lazyName anyNonNl sepWs2Price [] l).map (fun r => ⟨r.1, r.2, 1⟩),
   fun l => (lazyName anyNonNl sepTabPrice [] l).map (fun r => ⟨r.1, r.2, 1⟩),
   fun l => (greedyQtyName (fun c => c = '@') l).map rawOfQty,
   fun l => (greedyQtyName (fun c => c = 'x' || c = 'X') l).map rawOfQty,
   fun l => (lazyName anyNonNl sepWsPrice [] l).map (fun r => ⟨r.1, r.2, 1⟩)]

/-- Name cleanup: strip characters outside the word class, then trim. -/
def sanitizeName (n : List Char) : List Char :=
  trimChars (n.filter classWord)

/-- The keyword exclusion list of the single-line validation. -/
def itemExclKw : List (List Char) :=
  ["total".toList, "tax".toList, "subtotal".toList, "change".toList,
   "payment".toList, "cash".toList, "credit".toList, "debit".toList]

/-- The longer exclusion list used by the two-line fallback. -/
def itemExclKw2 : List (List Char) :=
  itemExclKw ++
  ["description".toList, "store".toList, "phone".toList, "manager".toList,
   "served".toList, "register".toList, "receipt".toList, "time".toList]

/-- The item acceptance checks of the source on a sanitized name. -/
def validItem (kws : List (List Char)) (name : List Char) (price : Dec) : Bool :=
  2 ≤ name.length && name.length ≤ 50 &&
  dlt ⟨0, 0⟩ price && dle price ⟨1000, 0⟩ &&
  ¬ (¬ name.isEmpty && name.all Char.isDigit) &&
  ¬ containsAnyKw kws (lowerStr name)

/-- Build the stored item from a validated raw match: name truncated to
100 characters, price rounded to two decimals, category assigned. -/
def buildItem (kws : List (List Char)) (r : RawItem) : Option ExtractedItem :=
  let name := sanitizeName r.name
  if validItem kws name r.price then
    some ⟨name.take 100, round2 r.price, categorizeItem name, r.quantity⟩
  else none

/-- A single line yields the first pattern match that passes validation
(a failed validation falls through to the next pattern). -/
def lineSingleItem (l : List Char) : Option ExtractedItem :=
  itemMatchers.findSome? (fun m => (m l).bind (buildItem itemExclKw))

/-- The two-line fallback price: digits dot one-or-two digits, whole line,
no commas. -/
def plainPrice (l : List Char) : Option Dec :=
  let p := spanP Char.isDigit l
  if p.1.isEmpty then none
  else
    match p.2 with
    | '.' :: r2 =>
      let q := spanP Char.isDigit r2
      if (q.1.length = 1 || q.1.length = 2) && q.2.isEmpty then
        some (mkAmount p.1 q.1)
      else none
    | _ => none

/-- The two-line fallback: an all-caps-shape name line of length 3 to 50
followed by a bare price line. -/
def twoLineItem (l1 l2 : List Char) : Option ExtractedItem :=
  if l1.all classUpper && 3 ≤ l1.length && l1.length ≤ 50 then
    match plainPrice l2 with
    | some p => buildItem itemExclKw2 ⟨l1, p, 1⟩
    | none => none
  else none

/-- The item loop: skip skip-lines, try single-line patterns, then the
two-line fallback which consumes the following line as well. -/
def extractItems : List (List Char) → List ExtractedItem
  | [] => []
  | [l] =>
    if shouldSkipLine l then []
    else
      match lineSingleItem l with
      | some it => [it]
      | none => []
  | l :: l2 :: rest2 =>
    if shouldSkipLine l then extractItems (l2 :: rest2)
    else
      match lineSingleItem l with
      | some it => it :: extractItems (l2 :: rest2)
      | none =>
        match twoLineItem l l2 with
        | some it => it :: extractItems rest2
        | none => extractItems (l2 :: rest2)

/-! ## Store name extraction (parseReceiptText, lines 313-352) -/

/-- Leftmost case-insensitive occurrence of a literal; returns the matched
substring in its original case. -/
def findLit1 (w : List Char) : List Char → Option (List Char)
  | [] => none
  | c :: cs =>
    if ciPrefix w (c :: cs) then some ((c :: cs).take w.length)
    else findLit1 w cs

/-- Leftmost occurrence of two case-insensitive literals separated by a
(possibly empty) whitespace run, as in the whole-space-star-foods shaped
patterns. -/
def findLit2 (w1 w2 : List Char) : List Char → Option (List Char)
  | [] => none
  | c :: cs =>
    (if ciPrefix w1 (c :: cs) then
      let r := (c :: cs).drop w1.length
      let p := spanP jsSpace r
      if ciPrefix w2 p.2 then
        some ((c :: cs).take (w1.length + p.1.length + w2.length))
      else none
    else none).orElse (fun _ => findLit2 w1 w2 cs)

/-- The known-store patterns, in source order. -/
def storeMatchers : List (List Char → Option (List Char)) :=
  [findLit1 "walmart".toList, findLit1 "target".toList,
   findLit2 "whole".toList "foods".toList, findLit1 "kroger".toList,
   findLit1 "safeway".toList, findLit1 "cvs".toList,
   findLit1 "walgreens".toList, findLit1 "starbucks".toList,
   findLit1 "mcdonald".toList, findLit1 "subway".toList,
   findLit2 "best".toList "buy".toList, findLit2 "home".toList "depot".toList,
   findLit1 "costco".toList, findLit2 "trader".toList "joe".toList,
   findLit1 "amazon".toList, findLit2 "apple".toList "store".toList,
   findLit1 "macy".toList, findLit1 "nordstrom".toList]

/-- match[0].charAt(0).toUpperCase() + match[0].slice(1).toLowerCase(). -/
def titleCase : List Char → List Char
  | [] => []
  | c :: cs => c.toUpper :: lowerStr cs

/-- The character class kept by the store-name strip:
[a-zA-Z0-9 \s & apostrophe -]. -/
def storeChar (c : Char) : Bool :=
  c.isAlpha || c.isDigit || jsSpace c || c = '&' || c = '\'' || c = '-'

/-- Does the line start with a character satisfying p? -/
def headIs (p : Char → Bool) : List Char → Bool
  | c :: _ => p c
  | [] => false

/-- The filters of the first-lines fallback: does this line look like a
possible store name? -/
def storeLineOk (l : List Char) : Bool :=
  ¬ headIs Char.isDigit l &&
  2 < l.length && l.length < 50 &&
  ¬ containsSub "receipt".toList (lowerStr l) &&
  ¬ containsSub "tax".toList (lowerStr l) &&
  ¬ containsSub "total".toList (lowerStr l) &&
  ¬ l.all (fun c => c.isDigit || ¬ wordChar c) &&
  ¬ headIs (fun c => c = '$') l

/-- The first-lines fallback loop.  Note the source assigns the stripped
line to storeName before testing its length, so a too-short stripped line
can survive as the result when no later line qualifies. -/
def storeFromLines (cur : List Char) : List (List Char) → List Char
  | [] => cur
  | l :: rest =>
    if storeLineOk l then
      let s := trimChars (l.filter storeChar)
      if 2 < s.length then s else storeFromLines s rest
    else storeFromLines cur rest

/-- Store name before the final strip at the return. -/
def extractStoreName (text : List Char) (lines : List (List Char)) : List Char :=
  match storeMatchers.findSome? (fun m => m text) with
  | some m => titleCase m
  | none => storeFromLines "Unknown Store".toList (lines.take 5)

/-! ## Purchase date extraction (parseReceiptText, lines 409-463) -/

/-- A calendar date record: year, month, day. -/
structure SDate where
  y : ℤ
  m : ℤ
  d : ℤ
deriving DecidableEq, Repr

def isLeap (y : ℤ) : Bool := y % 4 = 0 && (y % 100 ≠ 0 || y % 400 = 0)

def daysInMonth (y m : ℤ) : ℤ :=
  if m = 1 then 31 else if m = 2 then (if isLeap y then 29 else 28)
  else if m = 3 then 31 else if m = 4 then 30 else if m = 5 then 31
  else if m = 6 then 30 else if m = 7 then 31 else if m = 8 then 31
  else if m = 9 then 30 else if m = 10 then 31 else if m = 11 then 30
  else if m = 12 then 31 else 0

def validSDate (t : SDate) : Bool :=
  1 ≤ t.m && t.m ≤ 12 && 1 ≤ t.d && t.d ≤ daysInMonth t.y t.m

/-- Date comparison (lexicographic on year, month, day), modelling the
comparison of Date objects at midnight. -/
def sdle (a b : SDate) : Bool :=
  a.y < b.y || (a.y = b.y && (a.m < b.m || (a.m = b.m && a.d ≤ b.d)))

/-- new Date(year - 1, month, day): same calendar date one year earlier,
with the Date constructor day overflow (Feb 29 rolls to Mar 1). -/
def oneYearAgo (t : SDate) : SDate :=
  if t.d ≤ daysInMonth (t.y - 1) t.m then ⟨t.y - 1, t.m, t.d⟩
  else ⟨t.y - 1, t.m + 1, t.d - daysInMonth (t.y - 1) t.m⟩

/-- Rata die style day number (civil-from-days inverse), used only to
state day distances between concrete dates. -/
def daysFromCivil (t : SDate) : ℤ :=
  let y := if t.m ≤ 2 then t.y - 1 else t.y
  let era := (if 0 ≤ y then y else y - 399) / 400
  let yoe := y - era * 400
  let mp := (t.m + 9) % 12
  let doy := (153 * mp + 2) / 5 + t.d - 1
  let doe := yoe * 365 + yoe / 4 - yoe / 100 + doy
  era * 146097 + doe

def mkDate (y m d : ℤ) : Option SDate :=
  if validSDate ⟨y, m, d⟩ then some ⟨y, m, d⟩ else none

/-- V8 fallback two-digit year rule: below 50 means 2000s, 50 to 99 means
1900s. -/
def expandYearV8 (n : ℕ) : ℤ :=
  if n < 50 then 2000 + n else if n < 100 then 1900 + n else n

/-- The source's own short-year rule applied before parsing: at most 30
means 2000s, otherwise 1900s. -/
def expandYearSrc (n : ℕ) : ℤ :=
  if n ≤ 30 then 2000 + n else 1900 + n

inductive DTok where
  | num : List Char → DTok
  | word : List Char → DTok
deriving DecidableEq, Repr

theorem spanP_snd_length_le (p : Char → Bool) :
    ∀ cs : List Char, (spanP p cs).2.length ≤ cs.length
  | [] => by simp [spanP]
  | c :: cs => by
    simp only [spanP]
    split
    · simpa using Nat.le_succ_of_le (spanP_snd_length_le p cs)
    · simp

/-- Tokenize a date candidate: digit runs, letter runs, with slash, dash,
dot, comma and whitespace as separators; any other character makes the
candidate unparseable.  The fuel argument makes the recursion structural
(every step consumes at least one character, so any fuel at least the
input length never runs out). -/
def dateToksF : ℕ → List Char → Option (List DTok)
  | 0, _ => none
  | _ + 1, [] => some []
  | fuel + 1, c :: cs =>
    if c.isDigit then
      let p := spanP Char.isDigit cs
      (dateToksF fuel p.2).map (fun ts => DTok.num (c :: p.1) :: ts)
    else if c.isAlpha then
      let p := spanP Char.isAlpha cs
      (dateToksF fuel p.2).map (fun ts => DTok.word (c :: p.1) :: ts)
    else if c = '/' || c = '-' || c = '.' || c = ',' || jsSpace c then
      dateToksF fuel cs
    else none

def dateToks (s : List Char) : Option (List DTok) :=
  dateToksF (s.length + 1) s

def monthNames : List (List Char) :=
  ["jan".toList, "feb".toList, "mar".toList, "apr".toList, "may".toList,
   "jun".toList, "jul".toList, "aug".toList, "sep".toList, "oct".toList,
   "nov".toList, "dec".toList]

def monthOfName (w : List Char) : Option ℤ :=
  let p := (lowerStr w).take 3
  ((monthNames.zip (List.range 12)).findSome? (fun q =>
    if q.1 = p then some ((q.2 : ℤ) + 1) else none))

/-- Model of the V8 Date(string) fallback parser on the candidate shapes
the five date patterns produce: month/day/year numeric (year first when it
has four digits), or month-name forms; ranges validated, two-digit years
expanded by the V8 rule. -/
def jsParseDate (s : List Char) : Option SDate :=
  match dateToks s with
  | some [DTok.num a, DTok.num b, DTok.num c] =>
    if a.length = 4 then mkDate (natOfDigits a) (natOfDigits b) (natOfDigits c)
    else mkDate (expandYearV8 (natOfDigits c)) (natOfDigits a) (natOfDigits b)
  | some [DTok.word w, DTok.num d, DTok.num y] =>
    (monthOfName w).bind (fun m => mkDate (expandYearV8 (natOfDigits y)) m (natOfDigits d))
  | some [DTok.num d, DTok.word w, DTok.num y] =>
    (monthOfName w).bind (fun m => mkDate (expandYearV8 (natOfDigits y)) m (natOfDigits d))
  | _ => none

/-- The shape tested by the source before rewriting a short year:
one-or-two digits, slash or dash, one-or-two digits, slash or dash,
exactly two digits, end. -/
def shortYearParts (s : List Char) : Option (ℕ × ℕ × ℕ) :=
  let p1 := spanP Char.isDigit s
  if 1 ≤ p1.1.length && p1.1.length ≤ 2 then
    match p1.2 with
    | c1 :: r1 =>
      if c1 = '/' || c1 = '-' then
        let p2 := spanP Char.isDigit r1
        if 1 ≤ p2.1.length && p2.1.length ≤ 2 then
          match p2.2 with
          | c2 :: r2 =>
            if c2 = '/' || c2 = '-' then
              let p3 := spanP Char.isDigit r2
              if p3.1.length = 2 && p3.2.isEmpty then
                some (natOfDigits p1.1, natOfDigits p2.1, natOfDigits p3.1)
              else none
            else none
          | [] => none
        else none
      else none
    | [] => none
  else none

/-- Accept a date candidate: rewrite a short-year candidate with the
source's expansion rule, parse, then keep it only when it lies between
one year ago and today. -/
def acceptDate (today : SDate) (s : List Char) : Option SDate :=
  let parsed :=
    match shortYearParts s with
    | some q => mkDate (expandYearSrc q.2.2) q.1 q.2.1
    | none => jsParseDate s
  match parsed with
  | some dt =>
    if sdle dt today && sdle (oneYearAgo today) dt then some dt else none
  | none => none

def isYMDSep (c : Char) : Bool := c = '/' || c = '-' || c = '.'

/-- A digit run of length between lo and hi followed by something that is
not a digit (the next-token constraint forces the run length). -/
def digitRunBounded (lo hi : ℕ) (cs : List Char) : Option (List Char × List Char) :=
  let p := spanP Char.isDigit cs
  if lo ≤ p.1.length && p.1.length ≤ hi then some (p.1, p.2) else none

/-- Date pattern 1 at a position: d{1,2} sep d{1,2} sep d{2,4}. -/
def dateP1At (cs : List Char) : Option (List Char × List Char) :=
  (digitRunBounded 1 2 cs).bind (fun r1 =>
    match r1.2 with
    | s1 :: t2 =>
      if isYMDSep s1 then
        (digitRunBounded 1 2 t2).bind (fun r2 =>
          match r2.2 with
          | s2 :: t4 =>
            if isYMDSep s2 then
              let p3 := spanP Char.isDigit t4
              if 2 ≤ p3.1.length then
                let k := min p3.1.length 4
                some (r1.1 ++ s1 :: r2.1 ++ s2 :: p3.1.take k, p3.1.drop k ++ p3.2)
              else none
            else none
          | [] => none)
      else none
    | [] => none)

/-- Date pattern 2 at a position: d{4} sep d{1,2} sep d{1,2}. -/
def dateP2At (cs : List Char) : Option (List Char × List Char) :=
  let p1 := spanP Char.isDigit cs
  if 4 ≤ p1.1.length then
    let r1 := p1.1.take 4
    let rest1 := p1.1.drop 4 ++ p1.2
    match rest1 with
    | s1 :: t2 =>
      if isYMDSep s1 && p1.1.length = 4 then
        (digitRunBounded 1 2 t2).bind (fun r2 =>
          match r2.2 with
          | s2 :: t4 =>
            if isYMDSep s2 then
              let p3 := spanP Char.isDigit t4
              if 1 ≤ p3.1.length then
                let k := min p3.1.length 2
                some (r1 ++ s1 :: r2.1 ++ s2 :: p3.1.take k, p3.1.drop k ++ p3.2)
              else none
            else none
          | [] => none)
      else none
    | [] => none
  else none

def spaceComma (c : Char) : Bool := jsSpace c || c = ','

def lowerAlpha (c : Char) : Bool := 'a' ≤ c && c ≤ 'z'

/-- Month-name literal at a position (lowercase only: the source rebuilds
the regex with only the global flag, losing case-insensitivity). -/
def monthLitAt (cs : List Char) : Option (List Char) :=
  monthNames.findSome? (fun m => if m.isPrefixOf cs then some m else none)

/-- Date pattern 3 at a position: monthname [a-z]* [space comma]+ d{1,2}
[space comma]+ d{2,4}. -/
def dateP3At (cs : List Char) : Option (List Char × List Char) :=
  (monthLitAt cs).bind (fun m =>
    let r0 := cs.drop m.length
    let ptail := spanP lowerAlpha r0
    let psep1 := spanP spaceComma ptail.2
    if psep1.1.isEmpty then none
    else
      (digitRunBounded 1 2 psep1.2).bind (fun rd =>
        let psep2 := spanP spaceComma rd.2
        if psep2.1.isEmpty then none
        else
          let py := spanP Char.isDigit psep2.2
          if 2 ≤ py.1.length then
            let k := min py.1.length 4
            some (m ++ ptail.1 ++ psep1.1 ++ rd.1 ++ psep2.1 ++ py.1.take k,
                  py.1.drop k ++ py.2)
          else none))

/-- Date pattern 4 at a position: d{1,2} \s+ monthname [a-z]* \s+ d{2,4}. -/
def dateP4At (cs : List Char) : Option (List Char × List Char) :=
  (digitRunBounded 1 2 cs).bind (fun rd =>
    let psep1 := spanP jsSpace rd.2
    if psep1.1.isEmpty then none
    else
      (monthLitAt psep1.2).bind (fun m =>
        let r0 := psep1.2.drop m.length
        let ptail := spanP lowerAlpha r0
        let psep2 := spanP jsSpace ptail.2
        if psep2.1.isEmpty then none
        else
          let py := spanP Char.isDigit psep2.2
          if 2 ≤ py.1.length then
            let k := min py.1.length 4
            some (rd.1 ++ psep1.1 ++ m ++ ptail.1 ++ psep2.1 ++ py.1.take k,
                  py.1.drop k ++ py.2)
          else none))

/-- Date pattern 5 at a position: d{1,2} [slash dash] d{1,2} [slash dash]
d{2} followed by whitespace (consumed into the match) or end. -/
def dateP5At (cs : List Char) : Option (List Char × List Char) :=
  (digitRunBounded 1 2 cs).bind (fun r1 =>
    match r1.2 with
    | s1 :: t2 =>
      if s1 = '/' || s1 = '-' then
        (digitRunBounded 1 2 t2).bind (fun r2 =>
          match r2.2 with
          | s2 :: t4 =>
            if s2 = '/' || s2 = '-' then
              match digitRunBounded 2 2 t4 with
              | some r3 =>
                match r3.2 with
                | [] => some (r1.1 ++ s1 :: r2.1 ++ s2 :: r3.1, [])
                | w :: rest =>
                  if jsSpace w then
                    some (r1.1 ++ s1 :: r2.1 ++ s2 :: r3.1 ++ [w], rest)
                  else none
              | none => none
            else none
          | [] => none)
      else none
    | [] => none)

/-- Global regex scan: all non-overlapping matches, resuming after each
match, scanning position by position.  The fuel argument (the text length)
bounds the recursion; every step consumes at least one character. -/
def findAllAux (step : List Char → Option (List Char × List Char)) :
    ℕ → List Char → List (List Char)
  | 0, _ => []
  | _ + 1, [] => []
  | fuel + 1, c :: cs =>
    match step (c :: cs) with
    | some r => r.1 :: findAllAux step fuel r.2
    | none => findAllAux step fuel cs

def findAllMatches (step : List Char → Option (List Char × List Char))
    (text : List Char) : List (List Char) :=
  findAllAux step (text.length + 1) text

/-- All date candidates, in pattern order then match order. -/
def dateCandidates (text : List Char) : List (List Char) :=
  findAllMatches dateP1At text ++ findAllMatches dateP2At text ++
  findAllMatches dateP3At text ++ findAllMatches dateP4At text ++
  findAllMatches dateP5At text

/-- The date loop: the first accepted candidate wins; otherwise today. -/
def extractDate (today : SDate) (text : List Char) : SDate :=
  match (dateCandidates text).findSome? (acceptDate today) with
  | some d => d
  | none => today

/-! ## Receipt level category (determineReceiptCategory, lines 673-713) -/

def storeDiningKw : List (List Char) :=
  ["starbucks".toList, "coffee".toList, "restaurant".toList, "cafe".toList,
   "food".toList]

def storeGroceriesKw : List (List Char) :=
  ["whole foods".toList, "grocery".toList, "market".toList,
   "supermarket".toList, "kroger".toList, "safeway".toList]

def storeHouseholdKw : List (List Char) :=
  ["target".toList, "walmart".toList, "costco".toList]

def storeElectronicsKw : List (List Char) :=
  ["best buy".toList, "electronic".toList, "apple store".toList]

def storeClothingKw : List (List Char) :=
  ["macy".toList, "clothing".toList, "fashion".toList, "apparel".toList]

/-- The insertion-ordered tally of item categories (JS object keys keep
insertion order). -/
def tallyAdd (acc : List (List Char × ℕ)) (k : List Char) : List (List Char × ℕ) :=
  if acc.any (fun q => q.1 = k) then
    acc.map (fun q => if q.1 = k then (q.1, q.2 + 1) else q)
  else acc ++ [(k, 1)]

def tallyOf (cats : List (List Char)) : List (List Char × ℕ) :=
  cats.foldl tallyAdd []

def tallyGet (t : List (List Char × ℕ)) (k : List Char) : ℕ :=
  match t.find? (fun q => q.1 = k) with
  | some q => q.2
  | none => 0

/-- keys.reduce((a, b) => count[a] > count[b] ? a : b): on a tie the later
key wins. -/
def pickMaxKey (t : List (List Char × ℕ)) : List Char :=
  match t.map Prod.fst with
  | [] => "Other".toList
  | k :: ks => ks.foldl (fun a b => if tallyGet t b < tallyGet t a then a else b) k

def determineReceiptCategory (storeName : List Char)
    (items : List ExtractedItem) : List Char :=
  let n := lowerStr storeName
  if storeDiningKw.any (fun k => containsSub k n) then "Dining".toList
  else if storeGroceriesKw.any (fun k => containsSub k n) then "Groceries".toList
  else if storeHouseholdKw.any (fun k => containsSub k n) then "Household".toList
  else if storeElectronicsKw.any (fun k => containsSub k n) then "Electronics".toList
  else if storeClothingKw.any (fun k => containsSub k n) then "Clothing".toList
  else if ¬ items.isEmpty then pickMaxKey (tallyOf (items.map (fun it => it.category)))
  else "Other".toList

/-! ## The receipt record and the parser (parseReceiptText, lines 306-629) -/

structure ExtractedReceipt where
  storeName : List Char
  totalAmount : Dec
  date : SDate
  items : List ExtractedItem
  category : List Char
  currency : List Char
  rawText : List Char
deriving DecidableEq, Repr

/-- items.reduce((sum, item) => sum + item.price, 0). -/
def sumPrices (items : List ExtractedItem) : Dec :=
  items.foldl (fun s it => dadd s it.price) ⟨0, 0⟩

/-- The parser: store name, explicit or heuristic total, purchase date,
items, category; the total falls back to the item sum, everything is
rounded or truncated exactly as at the source's return statement.
The today parameter models new Date() in the processing environment
(UTC in the deployment target, so toISOString keeps the calendar date). -/
def parseReceiptText (today : SDate) (text : List Char) : ExtractedReceipt :=
  let lines := toLines text
  let storeName := extractStoreName text lines
  let scan := scanTotals lines
  let date := extractDate today text
  let items := extractItems lines
  let category := determineReceiptCategory storeName items
  let total : Dec :=
    match scan.1 with
    | some a => a
    | none =>
      match selectCand lines.length scan.2 with
      | some c => c.amount
      | none => if items.isEmpty then ⟨0, 0⟩ else sumPrices items
  ⟨(trimChars (storeName.filter storeChar)).take 100, round2 total, date, items,
   category, "USD".toList, text.take 5000⟩

/-! ## Spatial extraction strategy

Modelled from the spec: the spatial (bounding-box) extraction strategy and
the orchestrator branch that prefers it are part of this repository's
pipeline but their code is not under src/ (only the plain-text parser is);
the definitions below follow the words of spec section 4.2. -/

/-- Modelled from the spec: an OCR word annotation, a recognized text
fragment with the four corner coordinates of its bounding polygon. -/
structure WordBox where
  text : List Char
  xs : List ℤ
  ys : List ℤ
deriving DecidableEq, Repr

/-- Average of the four corner coordinates (integer pixel model). -/
def avg4 (l : List ℤ) : ℤ := l.sum / 4

def wordY (w : WordBox) : ℤ := avg4 w.ys

def wordX (w : WordBox) : ℤ := avg4 w.xs

/-- The fixed pixel tolerance for clustering words into a line. -/
def yTolerance : ℤ := 10

/-- Stable insertion sort by a boolean comparison. -/
def insertBy {α : Type} (le : α → α → Bool) (x : α) : List α → List α
  | [] => [x]
  | y :: ys => if le x y then x :: y :: ys else y :: insertBy le x ys

def sortBy {α : Type} (le : α → α → Bool) (l : List α) : List α :=
  l.foldr (insertBy le) []

/-- Modelled from the spec: group words into lines by average Y within the
tolerance of an existing line's Y (the line's Y is its first word's). -/
def clusterAdd (acc : List (List WordBox)) (w : WordBox) : List (List WordBox) :=
  match acc with
  | [] => [[w]]
  | line :: rest =>
    match line with
    | [] => clusterAdd rest w
    | anchor :: _ =>
      if (wordY w - wordY anchor).natAbs ≤ yTolerance.natAbs then
        (line ++ [w]) :: rest
      else line :: clusterAdd rest w

def clusterLines (ws : List WordBox) : List (List WordBox) :=
  ws.foldl clusterAdd []

/-- The Y coordinate of a reconstructed line: its first word's. -/
def lineY : List WordBox → ℤ
  | [] => 0
  | w :: _ => wordY w

/-- Lines sorted top to bottom, words inside a line left to right. -/
def spatialLines (ws : List WordBox) : List (List WordBox) :=
  (sortBy (fun a b => lineY a ≤ lineY b) (clusterLines ws)).map
    (sortBy (fun a b => wordX a ≤ wordX b))

/-- Join word texts with single spaces. -/
def joinWords (ws : List WordBox) : List Char :=
  (List.intersperse " ".toList (ws.map (fun w => w.text))).flatten

/-- Modelled from the spec: obvious non-item keywords for a reconstructed
line (store, thank-you, contact info, totals). -/
def spatialSkipKw : List (List Char) :=
  ["store".toList, "thank".toList, "phone".toList, "address".toList,
   "total".toList, "subtotal".toList, "tax".toList, "balance".toList,
   "change".toList, "payment".toList, "cash".toList, "credit".toList,
   "debit".toList, "receipt".toList]

/-- Purely numeric or price shaped text. -/
def priceShapedOnly (s : List Char) : Bool :=
  ¬ s.isEmpty && s.all (fun c => c.isDigit || c = '.' || c = '$' || jsSpace c)

/-- A bare currency token: optional dollar sign, digits, optionally a dot
and one or two decimals. -/
def bareCurrency (w : List Char) : Option Dec :=
  let w2 := match w with
    | '$' :: r => r
    | r => r
  let p := spanP Char.isDigit w2
  if p.1.isEmpty then none
  else
    match p.2 with
    | [] => some (mkAmount p.1 [])
    | '.' :: r2 =>
      let q := spanP Char.isDigit r2
      if (q.1.length = 1 || q.1.length = 2) && q.2.isEmpty then
        some (mkAmount p.1 q.1)
      else none
    | _ => none

/-- First price-shaped word with value in (0, 1000): the words before it
form the name. -/
def splitAtPrice : List WordBox → Option (List WordBox × Dec)
  | [] => none
  | w :: ws =>
    match bareCurrency w.text with
    | some p =>
      if dlt ⟨0, 0⟩ p && dlt p ⟨1000, 0⟩ then some ([], p)
      else (splitAtPrice ws).map (fun r => (w :: r.1, r.2))
    | none => (splitAtPrice ws).map (fun r => (w :: r.1, r.2))

/-- An optional N x quantity token in the line text; defaults to 1.  The
fuel argument makes the recursion structural; fuel at least the input
length never runs out. -/
def parseQtyTokF : ℕ → List Char → ℕ
  | 0, _ => 1
  | _ + 1, [] => 1
  | fuel + 1, c :: cs =>
    if c.isDigit then
      let p := spanP Char.isDigit cs
      match (spanP jsSpace p.2).2 with
      | 'x' :: _ => if natOfDigits (c :: p.1) = 0 then 1 else natOfDigits (c :: p.1)
      | 'X' :: _ => if natOfDigits (c :: p.1) = 0 then 1 else natOfDigits (c :: p.1)
      | _ => parseQtyTokF fuel p.2
    else parseQtyTokF fuel cs

def parseQtyTok (s : List Char) : ℕ :=
  parseQtyTokF (s.length + 1) s

/-- An item produced by the spatial strategy, carrying a confidence score
in tenths (5 = 0.5 up to 10 = 1.0). -/
structure SpatialItem where
  item : ExtractedItem
  confidence : ℤ
deriving DecidableEq, Repr

/-- Modelled from the spec: confidence 0.5 plus the additive bonuses,
clamped at 1.0, in tenths. -/
def spatialConfidence (name : List Char) (price : Dec) : ℤ :=
  imin 10 (5 +
    (if 3 ≤ name.length && name.length ≤ 50 then 2 else 0) +
    (if headIs Char.isAlpha name then 1 else 0) +
    (if ¬ name.all Char.isDigit then 1 else 0) +
    (if dle ⟨50, 2⟩ price && dle price ⟨100, 0⟩ then 2 else 0) +
    (if containsAnyKw groceriesKw (lowerStr name) then 3 else 0))

/-- Modelled from the spec: one reconstructed line to an optional item. -/
def spatialItemOfLine (ws : List WordBox) : Option SpatialItem :=
  let txt := joinWords ws
  if containsAnyKw spatialSkipKw (lowerStr txt) || priceShapedOnly txt then none
  else
    match splitAtPrice ws with
    | none => none
    | some (before, price) =>
      let name := trimChars (joinWords before)
      if name.length ≤ 2 || containsAnyKw spatialSkipKw (lowerStr name) then none
      else
        some ⟨⟨name, price, categorizeItem name, parseQtyTok txt⟩,
              spatialConfidence name price⟩

/-- Modelled from the spec: the accepted items of the spatial strategy, in
line order (used only when at least two annotations accompany the leading
full-text annotation). -/
def spatialAccepted (anns : List WordBox) : List SpatialItem :=
  match anns with
  | [] => []
  | _fullText :: words =>
    if words.length < 2 then []
    else (spatialLines words).filterMap spatialItemOfLine

/-- Descending confidence order. -/
def confDescR (a b : SpatialItem) : Prop := b.confidence ≤ a.confidence

instance confDescR.decRel : DecidableRel confDescR :=
  fun a b => Int.decLe b.confidence a.confidence

instance confDescR.total : IsTotal SpatialItem confDescR :=
  ⟨fun a b => le_total b.confidence a.confidence⟩

instance confDescR.trans : IsTrans SpatialItem confDescR :=
  ⟨fun _ _ _ h1 h2 => le_trans h2 h1⟩

/-- Modelled from the spec: accepted items sorted descending by confidence
(stable insertion sort, as Array.prototype.sort is stable) and capped at
20. -/
def spatialRanked (anns : List WordBox) : List ExtractedItem :=
  ((List.insertionSort confDescR (spatialAccepted anns)).take 20).map
    (fun si => si.item)

/-- Modelled from the spec: the orchestrator entry point taking the
optional word annotations; it prefers the spatial strategy when it yields
at least one item and falls back to line-pattern extraction. -/
def parseReceipt (today : SDate) (text : List Char) (anns : List WordBox) :
    ExtractedReceipt :=
  let base := parseReceiptText today text
  let sp := spatialRanked anns
  if sp.isEmpty then base
  else
    ⟨base.storeName, base.totalAmount, base.date, sp, base.category,
     base.currency, base.rawText⟩

/-! ## Sustainability scorer (calculateSustainabilityScore, lines 715-760) -/

def sustainHighKw : List (List Char) :=
  ["organic".toList, "eco".toList, "sustainable".toList, "green".toList,
   "natural".toList, "biodegradable".toList, "fresh".toList, "local".toList,
   "farm".toList, "vegetable".toList, "fruit".toList]

def sustainMedKw : List (List Char) :=
  ["whole".toList, "grain".toList, "natural".toList, "unprocessed".toList,
   "water".toList, "plant".toList, "herb".toList]

def sustainLowKw : List (List Char) :=
  ["plastic".toList, "disposable".toList, "synthetic".toList, "artificial".toList,
   "processed".toList, "packaged".toList, "fast".toList, "instant".toList,
   "frozen".toList]

def sustainVeryLowKw : List (List Char) :=
  ["styrofoam".toList, "single.use".toList, "non.recyclable".toList,
   "chemical".toList, "preservative".toList]

/-- Per-item score: base 50, keyword tier adjustment (first matching tier
wins), category adjustment, clamped to [0, 100].  All intermediate scores
are integers, so the score is modelled in ℤ. -/
def itemSustainScore (it : ExtractedItem) : ℤ :=
  let n := lowerStr it.name
  let s1 : ℤ :=
    if containsAnyKw sustainHighKw n then 50 + 35
    else if containsAnyKw sustainMedKw n then 50 + 15
    else if containsAnyKw sustainLowKw n then 50 - 25
    else if containsAnyKw sustainVeryLowKw n then 50 - 35
    else 50
  let s2 : ℤ :=
    if it.category = "Groceries".toList then s1 + 10
    else if it.category = "Household".toList then s1 - 5
    else if it.category = "Electronics".toList then s1 - 15
    else s1
  imax 0 (imin 100 s2)

/-- calculateSustainabilityScore: average of the per-item scores,
Math.rounded, clamped to [0, 100]; 50 for an empty item list. -/
def calculateSustainabilityScore (items : List ExtractedItem) : ℤ :=
  if items.isEmpty then 50
  else
    let total := (items.map itemSustainScore).sum
    imax 0 (imin 100 (jsRoundDiv total (items.length : ℤ)))

/-! ## Lemmas about decimals -/

theorem pow10_pos (k : ℕ) : (0 : ℤ) < pow10 k := pow_pos (by norm_num) k

theorem pow10_cast (k : ℕ) : ((pow10 k : ℤ) : ℚ) = (10 : ℚ) ^ k := by
  simp [pow10]

theorem qpow10_pos (k : ℕ) : (0 : ℚ) < (10 : ℚ) ^ k := pow_pos (by norm_num) k

theorem dle_iff (a b : Dec) : dle a b = true ↔ a.val ≤ b.val := by
  simp only [dle, decide_eq_true_eq, Dec.val,
    div_le_div_iff₀ (qpow10_pos _) (qpow10_pos _)]
  rw [← pow10_cast, ← pow10_cast, ← Int.cast_mul, ← Int.cast_mul, Int.cast_le]

theorem dlt_iff (a b : Dec) : dlt a b = true ↔ a.val < b.val := by
  simp only [dlt, decide_eq_true_eq, Dec.val,
    div_lt_div_iff₀ (qpow10_pos _) (qpow10_pos _)]
  rw [← pow10_cast, ← pow10_cast, ← Int.cast_mul, ← Int.cast_mul, Int.cast_lt]

theorem val_zero : (Dec.val ⟨0, 0⟩) = 0 := by simp [Dec.val]

theorem val_dadd (a b : Dec) : (dadd a b).val = a.val + b.val := by
  simp only [dadd, Dec.val]
  push_cast [pow10]
  rw [div_add_div _ _ (ne_of_gt (qpow10_pos a.exp)) (ne_of_gt (qpow10_pos b.exp))]
  rw [pow_add]
  ring_nf

theorem val_dmulNat (n : ℕ) (a : Dec) : (dmulNat n a).val = n * a.val := by
  simp [dmulNat, Dec.val, mul_div_assoc]

theorem jsRoundDiv_eq_floor (num den : ℤ) (h : 0 < den) :
    jsRoundDiv num den = ⌊((num : ℚ) / (den : ℚ) + 1 / 2 : ℚ)⌋ := by
  have hden : ((2 * den).toNat : ℤ) = 2 * den := Int.toNat_of_nonneg (by omega)
  have heq : ((num : ℚ) / (den : ℚ) + 1 / 2 : ℚ)
      = ((2 * num + den : ℤ) : ℚ) / (((2 * den).toNat : ℕ) : ℚ) := by
    have h1 : (((2 * den).toNat : ℕ) : ℚ) = ((2 * den : ℤ) : ℚ) := by
      exact_mod_cast congrArg (fun z : ℤ => (z : ℚ)) hden
    rw [h1]
    have hd : (den : ℚ) ≠ 0 := Int.cast_ne_zero.mpr (by omega)
    push_cast
    field_simp
    ring
  rw [heq, Rat.floor_intCast_div_natCast, hden, jsRoundDiv]

theorem jsRoundDec_eq_floor (d : Dec) :
    jsRoundDec d = ⌊(d.val + 1 / 2 : ℚ)⌋ := by
  rw [jsRoundDec, jsRoundDiv_eq_floor _ _ (pow10_pos d.exp), Dec.val, pow10_cast]

theorem val_round2 (d : Dec) :
    (round2 d).val = (⌊(100 * d.val + 1 / 2 : ℚ)⌋ : ℚ) / 100 := by
  have h : (Dec.mk (d.num * 100) d.exp).val = 100 * d.val := by
    simp [Dec.val]
    ring
  rw [round2, Dec.val]
  rw [jsRoundDec_eq_floor, h]
  norm_num

theorem round2_nonneg (d : Dec) (h : 0 ≤ d.val) : 0 ≤ (round2 d).val := by
  rw [val_round2]
  have h2 : (0 : ℤ) ≤ ⌊(100 * d.val + 1 / 2 : ℚ)⌋ := by
    apply Int.floor_nonneg.mpr
    nlinarith
  positivity

theorem round2_le_int (d : Dec) (k : ℤ) (h : d.val ≤ k) : (round2 d).val ≤ k := by
  rw [val_round2, div_le_iff₀ (by norm_num : (0:ℚ) < 100)]
  have h2 : ⌊(100 * d.val + 1 / 2 : ℚ)⌋ < 100 * k + 1 := by
    rw [Int.floor_lt]
    push_cast
    nlinarith
  have h3 : ⌊(100 * d.val + 1 / 2 : ℚ)⌋ ≤ 100 * k := by omega
  calc ((⌊(100 * d.val + 1 / 2 : ℚ)⌋ : ℤ) : ℚ) ≤ ((100 * k : ℤ) : ℚ) := by
        exact_mod_cast h3
    _ = (k : ℚ) * 100 := by push_cast; ring

theorem round2_exact (d : Dec) (h : d.exp ≤ 2) : (round2 d).val = d.val := by
  have hpow : (10 : ℚ) ^ (2 - d.exp) * (10 : ℚ) ^ d.exp = 100 := by
    rw [← pow_add, Nat.sub_add_cancel h]
    norm_num
  have hval : d.val * (10 : ℚ) ^ d.exp = d.num := by
    rw [Dec.val]
    field_simp
  have hscale : (100 : ℚ) * d.val = ((d.num * pow10 (2 - d.exp) : ℤ) : ℚ) := by
    push_cast [pow10]
    linear_combination (-d.val) * hpow + ((10 : ℚ) ^ (2 - d.exp)) * hval
  rw [val_round2, hscale, add_comm, Int.floor_add_int]
  have hfl : ⌊(1 / 2 : ℚ)⌋ = 0 := by norm_num
  rw [hfl, zero_add]
  rw [div_eq_iff (by norm_num : (100 : ℚ) ≠ 0)]
  push_cast [pow10]
  linear_combination (d.val) * hpow - ((10 : ℚ) ^ (2 - d.exp)) * hval


/-! ## Small order lemmas for the clamp -/

theorem le_imax_left (a b : ℤ) : a ≤ imax a b := by
  unfold imax
  split <;> omega

theorem imax_le (a b c : ℤ) (h1 : a ≤ c) (h2 : b ≤ c) : imax a b ≤ c := by
  unfold imax
  split <;> assumption

theorem imin_le_left (a b : ℤ) : imin a b ≤ a := by
  unfold imin
  split <;> omega

/-- Membership in a trimmed list comes from the original list. -/
theorem mem_trimChars {c : Char} {s : List Char} (h : c ∈ trimChars s) : c ∈ s := by
  unfold trimChars at h
  rw [List.mem_reverse] at h
  have h2 := (List.dropWhile_sublist _).subset h
  rw [List.mem_reverse] at h2
  exact (List.dropWhile_sublist _).subset h2

/-- Claim C7: applying the sustainability scorer to an empty item list
returns exactly the neutral score 50. -/
theorem claim_C7 : calculateSustainabilityScore [] = 50 := rfl

/-- Counterexample to claim C6 as stated: a single organic grocery item
scores 95, outside [10, 90]. -/
theorem claim_C6_counterexample :
    calculateSustainabilityScore
        [⟨"organic apple".toList, ⟨499, 2⟩, "Groceries".toList, 1⟩] = 95 ∧
    ¬ calculateSustainabilityScore
        [⟨"organic apple".toList, ⟨499, 2⟩, "Groceries".toList, 1⟩] ≤ 90 := by
  decide

/-- Claim C6 (amended): for every list of items, the sustainability
scorer's output is a rounded (integer) value lying within [0, 100]
(the source clamps to [0, 100], not [10, 90]). -/
theorem claim_C6 (items : List ExtractedItem) :
    0 ≤ calculateSustainabilityScore items ∧
      calculateSustainabilityScore items ≤ 100 := by
  unfold calculateSustainabilityScore
  split
  · exact ⟨by norm_num, by norm_num⟩
  · exact ⟨le_imax_left 0 _, imax_le _ _ _ (by norm_num) (imin_le_left 100 _)⟩

/-- Counterexample to claim C1 as stated: on the scenario text the
receipt-level category is Household (the store branch for walmart),
not Groceries. -/
theorem claim_C1_counterexample :
    (parseReceiptText ⟨2026, 10, 11⟩
        "WALMART\nMILK 3.50\nBREAD 2.00\nTOTAL: 5.50".toList).category ≠
      "Groceries".toList := by
  decide

/-- Claim C1 (amended): the scenario parse returns store Walmart, the two
grocery items MILK at 3.50 and BREAD at 2.00, total 5.50 — but the
receipt-level category is Household, since determineReceiptCategory maps
a walmart store name to Household before items are consulted. -/
theorem claim_C1 (today : SDate) :
    parseReceiptText today "WALMART\nMILK 3.50\nBREAD 2.00\nTOTAL: 5.50".toList =
      ⟨"Walmart".toList, ⟨550, 2⟩, today,
       [⟨"MILK".toList, ⟨350, 2⟩, "Groceries".toList, 1⟩,
        ⟨"BREAD".toList, ⟨200, 2⟩, "Groceries".toList, 1⟩],
       "Household".toList, "USD".toList,
       "WALMART\nMILK 3.50\nBREAD 2.00\nTOTAL: 5.50".toList⟩ ∧
    Dec.val ⟨550, 2⟩ = 55 / 10 ∧ Dec.val ⟨350, 2⟩ = 35 / 10 ∧
      Dec.val ⟨200, 2⟩ = 2 := by
  refine ⟨rfl, ?_, ?_, ?_⟩ <;> norm_num [Dec.val]

/-- Claim C8: the parser is a total function (it never raises), and empty
or unparseable text degrades to the documented defaults: Unknown Store,
zero total, today's date, no items, category Other. -/
theorem claim_C8 (today : SDate) :
    parseReceiptText today [] =
      ⟨"Unknown Store".toList, ⟨0, 2⟩, today, [], "Other".toList,
       "USD".toList, []⟩ ∧
    parseReceiptText today "@#$%\n***".toList =
      ⟨"Unknown Store".toList, ⟨0, 2⟩, today, [], "Other".toList,
       "USD".toList, "@#$%\n***".toList⟩ ∧
    Dec.val ⟨0, 2⟩ = 0 := by
  refine ⟨rfl, rfl, by norm_num [Dec.val]⟩

/-- Claim C10: rawText is the at-most-5000-character prefix of the input,
and the returned store name is at most 100 characters long and contains
only alphanumerics, whitespace and the ampersand, apostrophe, dash set. -/
theorem claim_C10 (today : SDate) (text : List Char) :
    (parseReceiptText today text).rawText = text.take 5000 ∧
    (∃ rest, text = (parseReceiptText today text).rawText ++ rest) ∧
    (parseReceiptText today text).rawText.length ≤ 5000 ∧
    (parseReceiptText today text).storeName.length ≤ 100 ∧
    ∀ c ∈ (parseReceiptText today text).storeName, storeChar c = true := by
  refine ⟨rfl, ⟨text.drop 5000, (List.take_append_drop 5000 text).symm⟩,
    List.length_take_le _ _, List.length_take_le _ _, ?_⟩
  intro c hc
  have hc2 : c ∈ trimChars ((extractStoreName text (toLines text)).filter storeChar) :=
    List.mem_of_mem_take hc
  have hc3 := mem_trimChars hc2
  exact (List.mem_filter.mp hc3).2


/-! ## Item invariants (towards claim C5) -/

theorem categorizeItem_mem (n : List Char) : categorizeItem n ∈ categoryLabels := by
  simp only [categorizeItem]
  split_ifs <;> simp [categoryLabels]

theorem mkAmount_exp (ds fs : List Char) : (mkAmount ds fs).exp = fs.length := rfl

theorem priceAtEnd_exp {cs : List Char} {p : Dec} (h : priceAtEnd cs = some p) :
    p.exp ≤ 2 := by
  simp only [priceAtEnd] at h
  split at h
  · exact absurd h (by simp)
  · split at h
    · split at h
      · rename_i hcond
        simp only [Option.some.injEq] at h
        subst h
        simp only [Bool.and_eq_true, Bool.or_eq_true, decide_eq_true_eq] at hcond
        rw [mkAmount_exp]
        omega
      · exact absurd h (by simp)
    · exact absurd h (by simp)

theorem sepWsPrice_exp {cs : List Char} {p : Dec} (h : sepWsPrice cs = some p) :
    p.exp ≤ 2 := by
  simp only [sepWsPrice] at h
  split at h
  · exact absurd h (by simp)
  · exact priceAtEnd_exp h

theorem sepDollarPrice_exp {cs : List Char} {p : Dec} (h : sepDollarPrice cs = some p) :
    p.exp ≤ 2 := by
  simp only [sepDollarPrice] at h
  split at h
  · exact absurd h (by simp)
  · split at h
    · exact priceAtEnd_exp h
    · exact absurd h (by simp)

theorem sepWs2Price_exp {cs : List Char} {p : Dec} (h : sepWs2Price cs = some p) :
    p.exp ≤ 2 := by
  simp only [sepWs2Price] at h
  split at h
  · exact priceAtEnd_exp h
  · exact absurd h (by simp)

theorem sepTabPrice_exp {cs : List Char} {p : Dec} (h : sepTabPrice cs = some p) :
    p.exp ≤ 2 := by
  simp only [sepTabPrice] at h
  split at h
  · exact absurd h (by simp)
  · exact priceAtEnd_exp h

theorem lazyName_sep {nameOk : Char → Bool} {sep : List Char → Option Dec}
    {acc cs : List Char} {n : List Char} {p : Dec}
    (h : lazyName nameOk sep acc cs = some (n, p)) :
    ∃ cs', sep cs' = some p := by
  induction cs generalizing acc with
  | nil => exact absurd h (by simp [lazyName])
  | cons c cs ih =>
    simp only [lazyName] at h
    split at h
    · split at h
      · rename_i v hv
        simp only [Option.some.injEq, Prod.mk.injEq] at h
        exact ⟨cs, by rw [hv, h.2]⟩
      · exact ih h
    · exact absurd h (by simp)

theorem qtyCont_exp {symOk : Char → Bool} {cs : List Char} {q : ℕ} {u : Dec}
    (h : qtyCont symOk cs = some (q, u)) : u.exp ≤ 2 := by
  simp only [qtyCont] at h
  split at h
  · exact absurd h (by simp)
  · split at h
    · exact absurd h (by simp)
    · split at h
      · split at h
        · split at h
          · exact absurd h (by simp)
          · split at h
            · split at h
              · exact absurd h (by simp)
              · simp only [Option.some.injEq, Prod.mk.injEq] at h
                have : u = mkAmount _ _ := h.2.symm
                rw [this, mkAmount_exp]
                exact le_trans (List.length_take_le _ _) (by norm_num)
            · exact absurd h (by simp)
        · exact absurd h (by simp)
      · exact absurd h (by simp)

theorem greedyShrink_cont {cont : List Char → Option (ℕ × Dec)}
    {rev rest : List Char} {n : List Char} {q : ℕ} {u : Dec}
    (h : greedyShrink cont rev rest = some (n, q, u)) :
    ∃ cs, cont cs = some (q, u) := by
  induction rev generalizing rest with
  | nil => exact absurd h (by simp [greedyShrink])
  | cons c rev ih =>
    simp only [greedyShrink] at h
    split at h
    · rename_i v hv
      simp only [Option.some.injEq, Prod.mk.injEq] at h
      exact ⟨rest, by rw [hv, h.2]⟩
    · exact ih h

theorem lazyMapRaw {nameOk : Char → Bool} {sep : List Char → Option Dec}
    {l : List Char} {r : RawItem}
    (hexp : ∀ {cs : List Char} {p : Dec}, sep cs = some p → p.exp ≤ 2)
    (h : (lazyName nameOk sep [] l).map
      (fun x => RawItem.mk x.1 x.2 1) = some r) :
    1 ≤ r.quantity ∧ r.price.exp ≤ 2 := by
  simp only [Option.map_eq_some'] at h
  obtain ⟨x, hl, hr⟩ := h
  obtain ⟨nm, p⟩ := x
  cases hr
  refine ⟨le_refl 1, ?_⟩
  obtain ⟨cs', hcs⟩ := lazyName_sep hl
  exact hexp hcs

theorem qtyMapRaw {symOk : Char → Bool} {l : List Char} {r : RawItem}
    (h : (greedyQtyName symOk l).map rawOfQty = some r) :
    1 ≤ r.quantity ∧ r.price.exp ≤ 2 := by
  simp only [Option.map_eq_some'] at h
  obtain ⟨x, hl, hr⟩ := h
  obtain ⟨nm, q, u⟩ := x
  cases hr
  simp only [greedyQtyName] at hl
  obtain ⟨cs, hc⟩ := greedyShrink_cont hl
  have hexp := qtyCont_exp hc
  unfold rawOfQty dmulNat
  constructor
  · simp only
    split <;> omega
  · simpa using hexp

theorem itemMatcher_raw {m : List Char → Option RawItem} (hm : m ∈ itemMatchers)
    {l : List Char} {r : RawItem} (h : m l = some r) :
    1 ≤ r.quantity ∧ r.price.exp ≤ 2 := by
  simp only [itemMatchers, List.mem_cons, List.not_mem_nil, or_false] at hm
  rcases hm with rfl | rfl | rfl | rfl | rfl | rfl | rfl
  · exact lazyMapRaw (fun hcs => sepWsPrice_exp hcs) h
  · exact lazyMapRaw (fun hcs => sepDollarPrice_exp hcs) h
  · exact lazyMapRaw (fun hcs => sepWs2Price_exp hcs) h
  · exact lazyMapRaw (fun hcs => sepTabPrice_exp hcs) h
  · exact qtyMapRaw h
  · exact qtyMapRaw h
  · exact lazyMapRaw (fun hcs => sepWsPrice_exp hcs) h


theorem containsAnyKw_append {k1 k2 : List (List Char)} {s : List Char}
    (h : containsAnyKw (k1 ++ k2) s = false) : containsAnyKw k1 s = false := by
  simp only [containsAnyKw, List.any_append, Bool.or_eq_false_iff] at h
  exact h.1

theorem itemExclKw2_sub {s : List Char}
    (h : containsAnyKw itemExclKw2 s = false) :
    containsAnyKw itemExclKw s = false := by
  rw [itemExclKw2] at h
  exact containsAnyKw_append h

theorem plainPrice_exp {cs : List Char} {p : Dec} (h : plainPrice cs = some p) :
    p.exp ≤ 2 := by
  simp only [plainPrice] at h
  split at h
  · exact absurd h (by simp)
  · split at h
    · split at h
      · rename_i hcond
        simp only [Option.some.injEq] at h
        subst h
        simp only [Bool.and_eq_true, Bool.or_eq_true, decide_eq_true_eq] at hcond
        rw [mkAmount_exp]
        omega
      · exact absurd h (by simp)
    · exact absurd h (by simp)

theorem buildItem_props {kws : List (List Char)} {r : RawItem} {it : ExtractedItem}
    (h : buildItem kws r = some it)
    (hq : 1 ≤ r.quantity) (he : r.price.exp ≤ 2)
    (hsub : ∀ s, containsAnyKw kws s = false → containsAnyKw itemExclKw s = false) :
    it.category ∈ categoryLabels ∧
    0 < it.price.val ∧ it.price.val ≤ 1000 ∧
    1 ≤ it.quantity ∧
    2 ≤ it.name.length ∧ it.name.length ≤ 50 ∧
    it.name.all Char.isDigit = false ∧
    containsAnyKw itemExclKw (lowerStr it.name) = false := by
  simp only [buildItem] at h
  split at h
  · rename_i hv
    simp only [Option.some.injEq] at h
    subst h
    simp only [validItem, Bool.and_eq_true, decide_eq_true_eq] at hv
    obtain ⟨⟨⟨⟨⟨h1, h2⟩, h3⟩, h4⟩, h5⟩, h6⟩ := hv
    have hname : (sanitizeName r.name).take 100 = sanitizeName r.name :=
      List.take_of_length_le (le_trans h2 (by norm_num))
    refine ⟨?_, ?_, ?_, ?_, ?_, ?_, ?_, ?_⟩
    · exact categorizeItem_mem _
    · have := (dlt_iff ⟨0, 0⟩ r.price).mp h3
      rw [val_zero] at this
      simpa [round2_exact _ he] using this
    · have := (dle_iff r.price ⟨1000, 0⟩).mp h4
      have hv1000 : Dec.val ⟨1000, 0⟩ = 1000 := by norm_num [Dec.val]
      rw [hv1000] at this
      simpa [round2_exact _ he] using this
    · exact hq
    · simpa [hname] using h1
    · simpa [hname] using h2
    · simp only [hname]
      rcases hdig : (sanitizeName r.name).all Char.isDigit with _ | _
      · rfl
      · exfalso
        apply h5
        constructor
        · simp only [Bool.not_eq_true]
          cases hl : sanitizeName r.name with
          | nil => rw [hl] at h1; simp at h1
          | cons a as => simp [List.isEmpty]
        · exact hdig
    · simp only [hname]
      rcases hkw : containsAnyKw kws (lowerStr (sanitizeName r.name)) with _ | _
      · exact hsub _ hkw
      · exact absurd hkw (by simpa using h6)
  · exact absurd h (by simp)

theorem lineSingleItem_props {l : List Char} {it : ExtractedItem}
    (h : lineSingleItem l = some it) :
    it.category ∈ categoryLabels ∧
    0 < it.price.val ∧ it.price.val ≤ 1000 ∧
    1 ≤ it.quantity ∧
    2 ≤ it.name.length ∧ it.name.length ≤ 50 ∧
    it.name.all Char.isDigit = false ∧
    containsAnyKw itemExclKw (lowerStr it.name) = false := by
  simp only [lineSingleItem] at h
  obtain ⟨m, hm, hmb⟩ := List.exists_of_findSome?_eq_some h
  obtain ⟨r, hr, hb⟩ := Option.bind_eq_some.mp hmb
  obtain ⟨hq, he⟩ := itemMatcher_raw hm hr
  exact buildItem_props hb hq he (fun s hs => hs)

theorem twoLineItem_props {l1 l2 : List Char} {it : ExtractedItem}
    (h : twoLineItem l1 l2 = some it) :
    it.category ∈ categoryLabels ∧
    0 < it.price.val ∧ it.price.val ≤ 1000 ∧
    1 ≤ it.quantity ∧
    2 ≤ it.name.length ∧ it.name.length ≤ 50 ∧
    it.name.all Char.isDigit = false ∧
    containsAnyKw itemExclKw (lowerStr it.name) = false := by
  simp only [twoLineItem] at h
  split at h
  · split at h
    · rename_i p hp
      exact buildItem_props h (le_refl 1) (plainPrice_exp hp)
        (fun s hs => itemExclKw2_sub hs)
    · exact absurd h (by simp)
  · exact absurd h (by simp)

theorem extractItems_nil : extractItems [] = [] := rfl

theorem extractItems_cons1 (l : List Char) :
    extractItems [l] =
      if shouldSkipLine l then []
      else
        match lineSingleItem l with
        | some it => [it]
        | none => [] := by
  rfl

theorem extractItems_cons2 (l l2 : List Char) (rest2 : List (List Char)) :
    extractItems (l :: l2 :: rest2) =
      if shouldSkipLine l then extractItems (l2 :: rest2)
      else
        match lineSingleItem l with
        | some it => it :: extractItems (l2 :: rest2)
        | none =>
          match twoLineItem l l2 with
          | some it => it :: extractItems rest2
          | none => extractItems (l2 :: rest2) := by
  rfl

theorem extractItems_skip {l : List Char} {rest : List (List Char)}
    (h : shouldSkipLine l = true) :
    extractItems (l :: rest) = extractItems rest := by
  cases rest with
  | nil => rw [extractItems_cons1, if_pos h, extractItems_nil]
  | cons l2 rest2 => rw [extractItems_cons2, if_pos h]

theorem extractItems_single {l : List Char} {rest : List (List Char)}
    {it : ExtractedItem} (h : ¬ shouldSkipLine l = true)
    (h2 : lineSingleItem l = some it) :
    extractItems (l :: rest) = it :: extractItems rest := by
  cases rest with
  | nil => rw [extractItems_cons1, if_neg h, h2, extractItems_nil]
  | cons l2 rest2 =>
    rw [extractItems_cons2, if_neg h, h2]

theorem extractItems_one {l : List Char} (h : ¬ shouldSkipLine l = true)
    (h2 : lineSingleItem l = none) : extractItems [l] = [] := by
  rw [extractItems_cons1, if_neg h, h2]

theorem extractItems_two {l l2 : List Char} {rest2 : List (List Char)}
    {it : ExtractedItem} (h : ¬ shouldSkipLine l = true)
    (h2 : lineSingleItem l = none) (h3 : twoLineItem l l2 = some it) :
    extractItems (l :: l2 :: rest2) = it :: extractItems rest2 := by
  rw [extractItems_cons2, if_neg h, h2]
  show (match twoLineItem l l2 with
    | some it => it :: extractItems rest2
    | none => extractItems (l2 :: rest2)) = it :: extractItems rest2
  rw [h3]

theorem extractItems_twoNone {l l2 : List Char} {rest2 : List (List Char)}
    (h : ¬ shouldSkipLine l = true) (h2 : lineSingleItem l = none)
    (h3 : twoLineItem l l2 = none) :
    extractItems (l :: l2 :: rest2) = extractItems (l2 :: rest2) := by
  rw [extractItems_cons2, if_neg h, h2]
  show (match twoLineItem l l2 with
    | some it => it :: extractItems rest2
    | none => extractItems (l2 :: rest2)) = extractItems (l2 :: rest2)
  rw [h3]

theorem extractItems_mem {lines : List (List Char)} {it : ExtractedItem}
    (h : it ∈ extractItems lines) :
    (∃ l, lineSingleItem l = some it) ∨ ∃ l1 l2, twoLineItem l1 l2 = some it := by
  induction lines using extractItems.induct with
  | case1 => exact absurd h (by simp [extractItems])
  | case2 l hskip =>
    rw [extractItems_skip hskip, extractItems_nil] at h
    exact absurd h (by simp)
  | case3 l hskip it' hit =>
    rw [extractItems_single hskip hit, extractItems_nil] at h
    rcases List.mem_cons.mp h with rfl | h2
    · exact Or.inl ⟨l, hit⟩
    · exact absurd h2 (by simp)
  | case4 l hskip hnone =>
    rw [extractItems_one hskip hnone] at h
    exact absurd h (by simp)
  | case5 l l2 rest2 hskip ih =>
    rw [extractItems_skip hskip] at h
    exact ih h
  | case6 l l2 rest2 hskip it' hit ih =>
    rw [extractItems_single hskip hit] at h
    rcases List.mem_cons.mp h with rfl | h2
    · exact Or.inl ⟨l, hit⟩
    · exact ih h2
  | case7 l l2 rest2 hskip hnone it' htwo ih =>
    rw [extractItems_two hskip hnone htwo] at h
    rcases List.mem_cons.mp h with rfl | h2
    · exact Or.inr ⟨l, l2, htwo⟩
    · exact ih h2
  | case8 l l2 rest2 hskip hnone htwo ih =>
    rw [extractItems_twoNone hskip hnone htwo] at h
    exact ih h

/-- Claim C5: every returned item has a category from the fixed label set,
a price in (0, 1000], a quantity of at least 1, and a (sanitized) name of
length between 2 and 50 (hence between 1 and 100) that is not purely
numeric and contains no total, tax or payment keyword. -/
theorem claim_C5 (today : SDate) (text : List Char) (it : ExtractedItem)
    (h : it ∈ (parseReceiptText today text).items) :
    it.category ∈ categoryLabels ∧
    0 < it.price.val ∧ it.price.val ≤ 1000 ∧
    1 ≤ it.quantity ∧
    1 ≤ it.name.length ∧ it.name.length ≤ 100 ∧
    2 ≤ it.name.length ∧ it.name.length ≤ 50 ∧
    it.name.all Char.isDigit = false ∧
    containsAnyKw itemExclKw (lowerStr it.name) = false := by
  have h2 : it ∈ extractItems (toLines text) := h
  have h3 := extractItems_mem h2
  have hp :
      it.category ∈ categoryLabels ∧
      0 < it.price.val ∧ it.price.val ≤ 1000 ∧
      1 ≤ it.quantity ∧
      2 ≤ it.name.length ∧ it.name.length ≤ 50 ∧
      it.name.all Char.isDigit = false ∧
      containsAnyKw itemExclKw (lowerStr it.name) = false := by
    rcases h3 with ⟨l, hl⟩ | ⟨l1, l2, hl⟩
    · exact lineSingleItem_props hl
    · exact twoLineItem_props hl
  obtain ⟨c1, c2, c3, c4, c5, c6, c7, c8⟩ := hp
  exact ⟨c1, c2, c3, c4, by omega, by omega, c5, c6, c7, c8⟩

/-- Witness for claim C5 at a concrete parse with one item. -/
theorem claim_C5_witness :
    (⟨"MILK".toList, ⟨350, 2⟩, "Groceries".toList, 1⟩ : ExtractedItem) ∈
      (parseReceiptText ⟨2026, 10, 11⟩ "MILK 3.50".toList).items ∧
    ("Groceries".toList ∈ categoryLabels ∧
     0 < Dec.val ⟨350, 2⟩ ∧ Dec.val ⟨350, 2⟩ ≤ 1000 ∧
     1 ≤ 1 ∧
     1 ≤ "MILK".toList.length ∧ "MILK".toList.length ≤ 100 ∧
     2 ≤ "MILK".toList.length ∧ "MILK".toList.length ≤ 50 ∧
     "MILK".toList.all Char.isDigit = false ∧
     containsAnyKw itemExclKw (lowerStr "MILK".toList) = false) :=
  ⟨by decide, claim_C5 ⟨2026, 10, 11⟩ "MILK 3.50".toList
    ⟨"MILK".toList, ⟨350, 2⟩, "Groceries".toList, 1⟩ (by decide)⟩


/-! ## The total scan refinement (towards claims C2 and C3) -/

theorem amountInRange_val {a : Dec} (h : amountInRange a = true) :
    0 < a.val ∧ a.val < 10000 := by
  simp only [amountInRange, Bool.and_eq_true] at h
  have h1 := (dlt_iff ⟨0, 0⟩ a).mp h.1
  have h2 := (dlt_iff a ⟨10000, 0⟩).mp h.2
  rw [val_zero] at h1
  have : Dec.val ⟨10000, 0⟩ = 10000 := by norm_num [Dec.val]
  rw [this] at h2
  exact ⟨h1, h2⟩

theorem scanPats_snd (isTot : Bool) (i : ℕ) (l : List Char)
    (ms : List (List Char → Option Dec)) :
    (scanPats isTot i l ms).2 =
      if isTot then
        ms.findSome? (fun m =>
          match m l with
          | some a => if amountInRange a then some a else none
          | none => none)
      else none := by
  induction ms with
  | nil => cases isTot <;> simp [scanPats]
  | cons m ms ih =>
    simp only [scanPats]
    cases hml : m l with
    | none => rw [List.findSome?_cons]; simp only [hml]; rw [ih]
    | some a =>
      rw [List.findSome?_cons]
      simp only [hml]
      by_cases hr : amountInRange a = true
      · rw [if_pos hr]
        cases isTot with
        | true => simp [hr]
        | false => simp only [if_neg (by simp : ¬ (false = true))] at ih ⊢; rw [ih]
      · rw [if_neg hr, ih]
        simp only [hr]
        cases isTot <;> simp

theorem scanLineTot_snd (i : ℕ) (l : List Char) :
    (scanLineTot i l).2 = lineAccept l := by
  rw [scanLineTot, scanPats_snd, lineAccept, lineFirstValid]

theorem scanPats_fst_mem (isTot : Bool) (i : ℕ) (l : List Char)
    (ms : List (List Char → Option Dec)) :
    ∀ c ∈ (scanPats isTot i l ms).1, amountInRange c.amount = true ∧ c.index = i := by
  induction ms with
  | nil => simp [scanPats]
  | cons m ms ih =>
    intro c hc
    simp only [scanPats] at hc
    cases hml : m l with
    | none =>
      simp only [hml] at hc
      exact ih c hc
    | some a =>
      simp only [hml] at hc
      by_cases hr : amountInRange a = true
      · rw [if_pos hr] at hc
        cases isTot with
        | true =>
          simp only [eq_self_iff_true, if_true, List.mem_singleton] at hc
          subst hc
          exact ⟨hr, rfl⟩
        | false =>
          simp only [Bool.false_eq_true, if_false] at hc
          rcases List.mem_cons.mp hc with rfl | h2
          · exact ⟨hr, rfl⟩
          · exact ih c h2
      · rw [if_neg hr] at hc
        exact ih c hc

theorem scanLoop_cands (L : List (ℕ × List Char)) :
    ∀ c ∈ (scanLoop L).2, amountInRange c.amount = true := by
  induction L with
  | nil => simp [scanLoop]
  | cons p rest ih =>
    obtain ⟨i, l⟩ := p
    intro c hc
    simp only [scanLoop] at hc
    cases hs : (scanLineTot i l).2 with
    | none =>
      simp only [hs, List.mem_append] at hc
      rcases hc with h1 | h2
      · exact (scanPats_fst_mem _ i l _ c h1).1
      · exact ih c h2
    | some a =>
      simp only [hs] at hc
      exact (scanPats_fst_mem _ i l _ c hc).1

theorem scanLoop_fst (L : List (ℕ × List Char)) :
    (scanLoop L).1 = L.findSome? (fun p => lineAccept p.2) := by
  induction L with
  | nil => rfl
  | cons p rest ih =>
    obtain ⟨i, l⟩ := p
    simp only [scanLoop]
    rw [List.findSome?_cons]
    cases hs : (scanLineTot i l).2 with
    | none =>
      have hl : lineAccept l = none := by rw [← scanLineTot_snd i l, hs]
      simp only [hs, hl]
      exact ih
    | some a =>
      have hl : lineAccept l = some a := by rw [← scanLineTot_snd i l, hs]
      simp only [hs, hl]

/-- Claim-side description of the explicit total: the earliest total line
counting from the bottom yields its first valid amount. -/
def explicitTotalSpec (lines : List (List Char)) : Option Dec :=
  lines.reverse.findSome? lineAccept

/-- Claim-side description of the candidates recorded on one line. -/
def lineCandsSpec (i : ℕ) (l : List Char) : List Cand :=
  totalMatchers.filterMap (fun m =>
    match m l with
    | some a => if amountInRange a then some ⟨a, i⟩ else none
    | none => none)

/-- Claim-side description of all recorded candidates, bottom line first. -/
def candsSpec (lines : List (List Char)) : List Cand :=
  lines.enum.reverse.flatMap (fun p => lineCandsSpec p.1 p.2)

theorem scanTotals_fst (lines : List (List Char)) :
    (scanTotals lines).1 = explicitTotalSpec lines := by
  rw [scanTotals, scanLoop_fst, explicitTotalSpec]
  have h1 : lines.enum.reverse.map Prod.snd = lines.reverse := by
    rw [List.map_reverse, List.enum_map_snd]
  rw [← h1, List.findSome?_map]
  rfl

theorem scanPats_fst_of_none {isTot : Bool} {i : ℕ} {l : List Char}
    {ms : List (List Char → Option Dec)}
    (h : (scanPats isTot i l ms).2 = none) :
    (scanPats isTot i l ms).1 = ms.filterMap (fun m =>
      match m l with
      | some a => if amountInRange a then some ⟨a, i⟩ else none
      | none => none) := by
  induction ms with
  | nil => simp [scanPats]
  | cons m ms ih =>
    simp only [scanPats] at h ⊢
    rw [List.filterMap_cons]
    cases hml : m l with
    | none =>
      simp only [hml] at h ⊢
      exact ih h
    | some a =>
      simp only [hml] at h ⊢
      by_cases hr : amountInRange a = true
      · rw [if_pos hr] at h ⊢
        cases isTot with
        | true => simp at h
        | false =>
          simp only [Bool.false_eq_true, if_false] at h ⊢
          simp [ih h, hr]
      · rw [if_neg hr] at h ⊢
        simp only [if_neg hr]
        exact ih h

theorem scanLoop_snd_of_none {L : List (ℕ × List Char)}
    (h : (scanLoop L).1 = none) :
    (scanLoop L).2 = L.flatMap (fun p => lineCandsSpec p.1 p.2) := by
  induction L with
  | nil => rfl
  | cons p rest ih =>
    obtain ⟨i, l⟩ := p
    simp only [scanLoop] at h ⊢
    cases hs : (scanLineTot i l).2 with
    | none =>
      simp only [hs] at h ⊢
      rw [List.flatMap_cons, ih h]
      have h2 : (scanLineTot i l).1 = lineCandsSpec i l := by
        rw [scanLineTot, lineCandsSpec]
        exact scanPats_fst_of_none (by rw [← scanLineTot]; exact hs)
      rw [h2]
    | some a =>
      simp only [hs] at h
      exact absurd h (by simp)


/-! ## The candidate selection order (towards claim C3) -/

/-- The selection preorder: c is at least as preferred as d when it is in
the bottom third if d is, and has at least d's amount at equal flags. -/
def candGE (n : ℕ) (c d : Cand) : Prop :=
  (inBottomThird n d = true → inBottomThird n c = true) ∧
  (inBottomThird n c = inBottomThird n d → d.amount.val ≤ c.amount.val)

theorem candGE_refl (n : ℕ) (c : Cand) : candGE n c c :=
  ⟨id, fun _ => le_refl _⟩

theorem candGE_trans {n : ℕ} {a b c : Cand}
    (hab : candGE n a b) (hbc : candGE n b c) : candGE n a c := by
  obtain ⟨h1, h2⟩ := hab
  obtain ⟨h3, h4⟩ := hbc
  constructor
  · exact fun h => h1 (h3 h)
  · intro hac
    cases ha : inBottomThird n a <;> cases hb : inBottomThird n b
    · have hcv : inBottomThird n c = false := by rw [← hac, ha]
      exact le_trans (h4 (by rw [hb, hcv])) (h2 (by rw [ha, hb]))
    · exact absurd (h1 hb) (by simp [ha])
    · have hcv : inBottomThird n c = true := by rw [← hac, ha]
      exact absurd (h3 hcv) (by simp [hb])
    · have hcv : inBottomThird n c = true := by rw [← hac, ha]
      exact le_trans (h4 (by rw [hb, hcv])) (h2 (by rw [ha, hb]))

theorem candBetter_iff {n : ℕ} {c d : Cand} :
    candBetter n c d = true ↔
      (inBottomThird n c = true ∧ inBottomThird n d = false) ∨
      (inBottomThird n c = inBottomThird n d ∧ d.amount.val < c.amount.val) := by
  simp only [candBetter, Bool.or_eq_true, Bool.and_eq_true, decide_eq_true_eq,
    dlt_iff, Bool.not_eq_true]

theorem candGE_of_better {n : ℕ} {x b : Cand} (h : candBetter n x b = true) :
    candGE n x b := by
  rcases candBetter_iff.mp h with ⟨h1, h2⟩ | ⟨h1, h2⟩
  · refine ⟨fun hb => absurd hb (by simp [h2]), fun he => ?_⟩
    rw [h1, h2] at he
    exact absurd he (by simp)
  · exact ⟨fun hb => h1 ▸ hb, fun _ => le_of_lt h2⟩

theorem candGE_of_not_better {n : ℕ} {x b : Cand} (h : candBetter n x b = false) :
    candGE n b x := by
  have h2 : ¬ ((inBottomThird n x = true ∧ inBottomThird n b = false) ∨
      (inBottomThird n x = inBottomThird n b ∧ b.amount.val < x.amount.val)) := by
    rw [← candBetter_iff, h]
    simp
  push_neg at h2
  obtain ⟨h3, h4⟩ := h2
  constructor
  · intro hx
    cases hb : inBottomThird n b
    · exact absurd hb (by simp [h3 hx])
    · rfl
  · intro he
    exact le_of_not_lt (fun hlt => absurd hlt (by simpa using h4 he.symm))

theorem foldl_candPick (n : ℕ) : ∀ (rest : List Cand) (b : Cand),
    ((rest.foldl (candPick n) b) = b ∨ (rest.foldl (candPick n) b) ∈ rest) ∧
    candGE n (rest.foldl (candPick n) b) b ∧
    ∀ x ∈ rest, candGE n (rest.foldl (candPick n) b) x := by
  intro rest
  induction rest with
  | nil => exact fun b => ⟨Or.inl rfl, candGE_refl n b, by simp⟩
  | cons x rest ih =>
    intro b
    obtain ⟨ihmem, ihb, ihall⟩ := ih (candPick n b x)
    have hpb : candGE n (candPick n b x) b := by
      unfold candPick
      split
      · exact candGE_of_better (by assumption)
      · exact candGE_refl n b
    have hpx : candGE n (candPick n b x) x := by
      unfold candPick
      split
      · exact candGE_refl n x
      · exact candGE_of_not_better (Bool.not_eq_true _ ▸ (by assumption))
    refine ⟨?_, candGE_trans ihb hpb, ?_⟩
    · rcases ihmem with hm | hm
      · rw [List.foldl_cons, hm]
        unfold candPick
        split
        · exact Or.inr (List.mem_cons_self x rest)
        · exact Or.inl rfl
      · exact Or.inr (List.mem_cons_of_mem x hm)
    · intro y hy
      rcases List.mem_cons.mp hy with rfl | hy2
      · exact candGE_trans ihb hpx
      · exact ihall y hy2

theorem selectCand_spec {n : ℕ} {cs : List Cand} {c : Cand}
    (h : selectCand n cs = some c) : c ∈ cs ∧ ∀ x ∈ cs, candGE n c x := by
  cases cs with
  | nil => exact absurd h (by simp [selectCand])
  | cons c0 rest =>
    simp only [selectCand, Option.some.injEq] at h
    subst h
    obtain ⟨hmem, hb, hall⟩ := foldl_candPick n rest c0
    constructor
    · rcases hmem with hm | hm
      · rw [hm]; exact List.mem_cons_self c0 rest
      · exact List.mem_cons_of_mem c0 hm
    · intro x hx
      rcases List.mem_cons.mp hx with rfl | hx2
      · exact hb
      · exact hall x hx2


/-! ## Claims C2 and C3 -/

theorem lineAccept_inRange {l : List Char} {a : Dec}
    (h : lineAccept l = some a) : amountInRange a = true := by
  simp only [lineAccept] at h
  split at h
  · simp only [lineFirstValid] at h
    obtain ⟨m, _, hma⟩ := List.exists_of_findSome?_eq_some h
    cases hml : m l with
    | none =>
      simp only [hml] at hma
      exact absurd hma (by simp)
    | some b =>
      simp only [hml] at hma
      split at hma
      · rw [Option.some.injEq] at hma
        subst hma
        assumption
      · exact absurd hma (by simp)
  · exact absurd h (by simp)

theorem candsSpec_inRange {lines : List (List Char)} {c : Cand}
    (h : c ∈ candsSpec lines) : amountInRange c.amount = true := by
  simp only [candsSpec, List.mem_flatMap] at h
  obtain ⟨p, _, hc⟩ := h
  simp only [lineCandsSpec, List.mem_filterMap] at hc
  obtain ⟨m, _, hmc⟩ := hc
  cases hml : m p.2 with
  | none =>
    simp only [hml] at hmc
    exact absurd hmc (by simp)
  | some a =>
    simp only [hml] at hmc
    split at hmc
    · rw [Option.some.injEq] at hmc
      subst hmc
      assumption
    · exact absurd hmc (by simp)

theorem foldl_dadd_val (l : List ExtractedItem) : ∀ (acc : Dec),
    (l.foldl (fun s it => dadd s it.price) acc).val =
      acc.val + (l.map (fun it => it.price.val)).sum := by
  induction l with
  | nil => intro acc; simp
  | cons it l ih =>
    intro acc
    simp only [List.foldl_cons, List.map_cons, List.sum_cons, ih, val_dadd]
    ring

theorem sumPrices_val (items : List ExtractedItem) :
    (sumPrices items).val = (items.map (fun it => it.price.val)).sum := by
  rw [sumPrices, foldl_dadd_val, val_zero, zero_add]

theorem extractItems_price_pos {lines : List (List Char)} {it : ExtractedItem}
    (h : it ∈ extractItems lines) : 0 < it.price.val := by
  rcases extractItems_mem h with ⟨l, hl⟩ | ⟨l1, l2, hl⟩
  · exact (lineSingleItem_props hl).2.1
  · exact (twoLineItem_props hl).2.1

/-- Claim-side description of the base total before the final rounding:
the explicitly labelled total, else the selected heuristic candidate,
else the item sum when items exist, else zero. -/
def totalSpec (lines : List (List Char)) (items : List ExtractedItem) : Dec :=
  match explicitTotalSpec lines with
  | some a => a
  | none =>
    match selectCand lines.length (candsSpec lines) with
    | some c => c.amount
    | none => if items.isEmpty then ⟨0, 0⟩ else sumPrices items

theorem parseReceiptText_totalAmount (today : SDate) (text : List Char) :
    (parseReceiptText today text).totalAmount =
      round2 (match (scanTotals (toLines text)).1 with
        | some a => a
        | none =>
          match selectCand (toLines text).length (scanTotals (toLines text)).2 with
          | some c => c.amount
          | none =>
            if (extractItems (toLines text)).isEmpty then ⟨0, 0⟩
            else sumPrices (extractItems (toLines text))) := rfl

theorem totalAmount_eq_spec (today : SDate) (text : List Char) :
    (parseReceiptText today text).totalAmount =
      round2 (totalSpec (toLines text) (extractItems (toLines text))) := by
  rw [parseReceiptText_totalAmount, totalSpec]
  cases hex : explicitTotalSpec (toLines text) with
  | some a => rw [scanTotals_fst, hex]
  | none =>
    rw [scanTotals_fst, hex]
    have h1 : (scanTotals (toLines text)).1 = none := by
      rw [scanTotals_fst, hex]
    have hc : (scanTotals (toLines text)).2 = candsSpec (toLines text) := by
      rw [scanTotals] at h1 ⊢
      rw [scanLoop_snd_of_none h1]
      rfl
    rw [hc]

theorem totalSpec_nonneg (lines : List (List Char)) :
    0 ≤ (totalSpec lines (extractItems lines)).val := by
  rw [totalSpec]
  cases hex : explicitTotalSpec lines with
  | some a =>
    rw [explicitTotalSpec] at hex
    obtain ⟨l, _, hl⟩ := List.exists_of_findSome?_eq_some hex
    exact le_of_lt (amountInRange_val (lineAccept_inRange hl)).1
  | none =>
    cases hsel : selectCand lines.length (candsSpec lines) with
    | some c =>
      obtain ⟨hmem, _⟩ := selectCand_spec hsel
      exact le_of_lt (amountInRange_val (candsSpec_inRange hmem)).1
    | none =>
      show 0 ≤ (if (extractItems lines).isEmpty = true then (⟨0, 0⟩ : Dec)
        else sumPrices (extractItems lines)).val
      split
      · exact le_of_eq val_zero.symm
      · rw [sumPrices_val]
        apply List.sum_nonneg
        intro q hq
        obtain ⟨it, hit, rfl⟩ := List.mem_map.mp hq
        exact le_of_lt (extractItems_price_pos hit)

/-- Claim C2 (amended): the returned totalAmount is, rounded to two
decimals, the explicitly labelled total when one is accepted; otherwise
the heuristically selected candidate amount; otherwise the sum of the
extracted item prices when items exist; otherwise zero — and it is
always nonnegative.  (The source rounds in every branch, not only the
item-sum branch, so a labelled total of 5.999 comes back as 6.00.) -/
theorem claim_C2 (today : SDate) (text : List Char) :
    (parseReceiptText today text).totalAmount =
      round2 (totalSpec (toLines text) (extractItems (toLines text))) ∧
    0 ≤ (parseReceiptText today text).totalAmount.val := by
  refine ⟨totalAmount_eq_spec today text, ?_⟩
  rw [totalAmount_eq_spec today text]
  exact round2_nonneg _ (totalSpec_nonneg (toLines text))

/-- Counterexample to claim C2 as stated: on the text TOTAL: 5.999 the
explicitly labelled amount is 5.999 but the returned totalAmount is its
two-decimal rounding 6.00 (the double 5.999 times 100 lies well inside
(599.5, 600.5), so the source's float rounding returns 6.00 as well). -/
theorem claim_C2_counterexample :
    explicitTotalSpec (toLines "TOTAL: 5.999".toList) = some ⟨5999, 3⟩ ∧
    (parseReceiptText ⟨2026, 10, 11⟩ "TOTAL: 5.999".toList).totalAmount =
      ⟨600, 2⟩ ∧
    Dec.val ⟨600, 2⟩ ≠ Dec.val ⟨5999, 3⟩ := by
  refine ⟨by decide, by decide, ?_⟩
  norm_num [Dec.val]

/-- Claim C3: candidates are recorded only with amounts in (0, 10000);
the explicit total is the first valid amount on the earliest
total-labelled line counting from the bottom; and when no explicit total
exists, the selected candidate is one from the bottom third whenever any
candidate lies there, with the larger amount preferred among candidates
of equal bottom-third status. -/
theorem claim_C3 (lines : List (List Char)) :
    (∀ c ∈ (scanTotals lines).2, 0 < c.amount.val ∧ c.amount.val < 10000) ∧
    (scanTotals lines).1 = lines.reverse.findSome? lineAccept ∧
    ((scanTotals lines).1 = none →
      ∀ c, selectCand lines.length (scanTotals lines).2 = some c →
        c ∈ (scanTotals lines).2 ∧
        ((∃ x ∈ (scanTotals lines).2, inBottomThird lines.length x = true) →
          inBottomThird lines.length c = true) ∧
        ∀ x ∈ (scanTotals lines).2,
          inBottomThird lines.length x = inBottomThird lines.length c →
          x.amount.val ≤ c.amount.val) := by
  refine ⟨?_, scanTotals_fst lines, ?_⟩
  · intro c hc
    exact amountInRange_val (scanLoop_cands _ c hc)
  · intro _ c hsel
    obtain ⟨hmem, hall⟩ := selectCand_spec hsel
    refine ⟨hmem, ?_, ?_⟩
    · rintro ⟨x, hx, hbx⟩
      exact (hall x hx).1 hbx
    · intro x hx heq
      exact (hall x hx).2 heq.symm

/-- Witness for claim C3 on a concrete six-line receipt with three
candidates and no total line: the selected candidate is the bottom-third
one even though a larger amount sits higher up. -/
theorem claim_C3_witness :
    (0 < Dec.val ⟨300, 2⟩ ∧ Dec.val ⟨300, 2⟩ < 10000) ∧
    inBottomThird 6 ⟨⟨300, 2⟩, 5⟩ = true := by
  have h := claim_C3 ["$2.00 a".toList, "aa".toList, "$9.00 b".toList,
    "bb".toList, "cc".toList, "$3.00 e".toList]
  have h3 := h.2.2 (by decide) ⟨⟨300, 2⟩, 5⟩ (by decide)
  exact ⟨h.1 ⟨⟨300, 2⟩, 5⟩ (by decide),
    h3.2.1 ⟨⟨⟨300, 2⟩, 5⟩, by decide, by decide⟩⟩


/-! ## Date extraction properties (towards claim C4) -/

theorem mkDate_valid {y m d : ℤ} {t : SDate} (h : mkDate y m d = some t) :
    validSDate t = true := by
  unfold mkDate at h
  split at h
  · rw [Option.some.injEq] at h
    subst h
    assumption
  · exact absurd h (by simp)

theorem jsParseDate_valid {s : List Char} {t : SDate}
    (h : jsParseDate s = some t) : validSDate t = true := by
  unfold jsParseDate at h
  split at h
  · split at h <;> exact mkDate_valid h
  · obtain ⟨m, _, hb⟩ := Option.bind_eq_some.mp h
    exact mkDate_valid hb
  · obtain ⟨m, _, hb⟩ := Option.bind_eq_some.mp h
    exact mkDate_valid hb
  · exact absurd h (by simp)

theorem acceptDate_some {today : SDate} {s : List Char} {d : SDate}
    (h : acceptDate today s = some d) :
    validSDate d = true ∧ sdle d today = true ∧
      sdle (oneYearAgo today) d = true := by
  simp only [acceptDate] at h
  split at h
  case h_1 dt heq =>
    split at h
    · rename_i hcmp
      rw [Option.some.injEq] at h
      subst h
      simp only [Bool.and_eq_true] at hcmp
      refine ⟨?_, hcmp.1, hcmp.2⟩
      revert heq
      split
      · exact fun heq => mkDate_valid heq
      · exact fun heq => jsParseDate_valid heq
    · exact absurd h (by simp)
  case h_2 => exact absurd h (by simp)

theorem sdle_refl (t : SDate) : sdle t t = true := by
  simp [sdle]

theorem oneYearAgo_le (t : SDate) : sdle (oneYearAgo t) t = true := by
  unfold oneYearAgo
  split <;> simp [sdle]

theorem acceptDate_none_of {s : List Char} (hs : shortYearParts s = none)
    (hj : jsParseDate s = none) (d : SDate) : acceptDate d s = none := by
  simp only [acceptDate, hs, hj]

theorem findSome?_append_of_none {α β : Type} (f : α → Option β)
    {l1 : List α} (h : ∀ a ∈ l1, f a = none) (l2 : List α) :
    (l1 ++ l2).findSome? f = l2.findSome? f := by
  induction l1 with
  | nil => rfl
  | cons a l1 ih =>
    rw [List.cons_append, List.findSome?_cons, h a (List.mem_cons_self a l1)]
    exact ih (fun a' ha' => h a' (List.mem_cons_of_mem a ha'))

/-- Claim C4 (amended): the returned purchase date is always a valid
calendar date lying between the same calendar date one year earlier
(which is 366 days in spans containing a leap day, not 365) and today
inclusive; candidates that fail to parse, such as 13/45/2024, or fall
outside the range are rejected individually; the first accepted
candidate in pattern-list order wins (every candidate before it having
been rejected); when every candidate is rejected the returned date is
exactly today. -/
theorem claim_C4 (today : SDate) (text : List Char)
    (h : validSDate today = true) :
    validSDate (parseReceiptText today text).date = true ∧
    sdle (oneYearAgo today) (parseReceiptText today text).date = true ∧
    sdle (parseReceiptText today text).date today = true ∧
    (∀ d : SDate, acceptDate d "13/45/2024".toList = none) ∧
    ((dateCandidates text).all (fun c => (acceptDate today c).isNone) = true →
      (parseReceiptText today text).date = today) ∧
    (∀ (pre : List (List Char)) (c : List Char) (post : List (List Char))
        (d : SDate), dateCandidates text = pre ++ c :: post →
      (∀ c' ∈ pre, acceptDate today c' = none) →
      acceptDate today c = some d →
      (parseReceiptText today text).date = d) := by
  have hdate : (parseReceiptText today text).date = extractDate today text := rfl
  have h1345 : ∀ d : SDate, acceptDate d "13/45/2024".toList = none :=
    acceptDate_none_of (by decide) (by decide)
  have hfirst : ∀ (pre : List (List Char)) (c : List Char)
      (post : List (List Char)) (d : SDate),
      dateCandidates text = pre ++ c :: post →
      (∀ c' ∈ pre, acceptDate today c' = none) →
      acceptDate today c = some d →
      (parseReceiptText today text).date = d := by
    intro pre c post d hsplit hpre hacc
    have hsome : (dateCandidates text).findSome? (acceptDate today) = some d := by
      rw [hsplit, findSome?_append_of_none (acceptDate today) hpre,
        List.findSome?_cons, hacc]
    rw [hdate, extractDate, hsome]
  cases hfs : (dateCandidates text).findSome? (acceptDate today) with
  | some d =>
    have hd : extractDate today text = d := by
      rw [extractDate, hfs]
    obtain ⟨c, _, hc⟩ := List.exists_of_findSome?_eq_some hfs
    obtain ⟨hv, hle, hge⟩ := acceptDate_some hc
    refine ⟨hdate ▸ hd ▸ hv, hdate ▸ hd ▸ hge, hdate ▸ hd ▸ hle, h1345,
      ?_, hfirst⟩
    intro hall
    have : (dateCandidates text).findSome? (acceptDate today) = none :=
      List.findSome?_eq_none_iff.mpr (fun a ha => by
        have := List.all_eq_true.mp hall a ha
        exact Option.isNone_iff_eq_none.mp this)
    rw [hfs] at this
    exact absurd this (by simp)
  | none =>
    have hd2 : (parseReceiptText today text).date = today := by
      rw [hdate, extractDate, hfs]
    refine ⟨?_, ?_, ?_, h1345, fun _ => hd2, hfirst⟩
    · rw [hd2]; exact h
    · rw [hd2]; exact oneYearAgo_le today
    · rw [hd2]; exact sdle_refl today

/-- Witness for claim C4: the all-rejected default at a concrete valid
today with empty text, and the first-accepted-candidate conjunct at a
concrete one-candidate text. -/
theorem claim_C4_witness :
    validSDate ⟨2026, 10, 11⟩ = true ∧
    (parseReceiptText ⟨2026, 10, 11⟩ []).date = ⟨2026, 10, 11⟩ ∧
    sdle (oneYearAgo ⟨2026, 10, 11⟩) (parseReceiptText ⟨2026, 10, 11⟩ []).date
      = true ∧
    (parseReceiptText ⟨2024, 3, 1⟩ "3/1/2023".toList).date = ⟨2023, 3, 1⟩ := by
  have h := claim_C4 ⟨2026, 10, 11⟩ [] (by decide)
  have h2 := claim_C4 ⟨2024, 3, 1⟩ "3/1/2023".toList (by decide)
  refine ⟨by decide, h.2.2.2.2.1 (by decide), h.2.1, ?_⟩
  exact h2.2.2.2.2.2 [] "3/1/2023".toList [] ⟨2023, 3, 1⟩ (by decide)
    (by simp) (by decide)

/-- Counterexample to claim C4 as stated: with today = 2024-03-01 the text
3/1/2023 yields the purchase date 2023-03-01, which is 366 days before
today, outside [today - 365 days, today], and is not today. -/
theorem claim_C4_counterexample :
    (parseReceiptText ⟨2024, 3, 1⟩ "3/1/2023".toList).date = ⟨2023, 3, 1⟩ ∧
    daysFromCivil ⟨2024, 3, 1⟩ - daysFromCivil ⟨2023, 3, 1⟩ = 366 ∧
    (⟨2023, 3, 1⟩ : SDate) ≠ ⟨2024, 3, 1⟩ ∧
    validSDate ⟨2024, 3, 1⟩ = true := by
  decide


/-! ## Claim C9: the spatial strategy preference -/

/-- Claim C9 (spec-modelled): when word annotations are supplied and the
spatial strategy accepts at least one item, the returned items are the
accepted spatial items sorted descending by confidence and capped at 20;
otherwise the parser falls back to the line-pattern items. -/
theorem claim_C9 (today : SDate) (text : List Char) (anns : List WordBox) :
    (parseReceipt today text anns).items =
      (if (spatialRanked anns).isEmpty then (parseReceiptText today text).items
       else spatialRanked anns) ∧
    spatialRanked anns =
      ((List.insertionSort confDescR (spatialAccepted anns)).take 20).map
        (fun si => si.item) ∧
    List.Sorted confDescR (List.insertionSort confDescR (spatialAccepted anns)) ∧
    (List.insertionSort confDescR (spatialAccepted anns)).Perm
      (spatialAccepted anns) ∧
    (spatialRanked anns).length ≤ 20 := by
  refine ⟨?_, rfl, List.sorted_insertionSort _ _, List.perm_insertionSort _ _, ?_⟩
  · simp only [parseReceipt]
    split <;> rfl
  · rw [spatialRanked, List.length_map]
    exact List.length_take_le _ _

end SpendScan
